import Mathlib

/-!
Verification of the release-automation scripts of this repository
(`.github/scripts/bump_version.py` and `.github/scripts/add_rc_version.py`)
against their natural-language specification.

The scripts are embedded shallowly:

* a file's text is modelled as the list of its lines; where Python reads
  with `splitlines(keepends=True)` a line carries its terminator, where it
  reads with `splitlines()` a line is bare content;
* `sys.exit(...)` (process failure) is modelled by `none` / `false` /
  `Except.error`, continuing is `some` / `true` / `Except.ok`;
* Python `str.strip()` / `str.startswith` / slicing are modelled on the
  character list of the string (`\s` and `str.strip` are modelled over the
  ASCII whitespace characters, `\d` over the ASCII digits, which is what
  the manifests in question contain);
* the regular expressions of the scripts are small enough to be embedded
  as deterministic character-list parsers; each parser's doc comment names
  the regex it embeds and the greedy/anchor reasoning that makes the
  deterministic parse equivalent to the Python match.
-/

/-- The characters matched by Python's `\s` and stripped by `str.strip()`
(ASCII range: space, tab, newline, carriage return, vertical tab, form feed). -/
def pyIsSpace (c : Char) : Bool :=
  c = ' ' || c = '\t' || c = '\n' || c = '\r' || c = '\x0b' || c = '\x0c'

/-- Remove trailing whitespace from a character list (the right half of
Python's `str.strip()`). -/
def rstripWs (l : List Char) : List Char :=
  (l.reverse.dropWhile pyIsSpace).reverse

/-- Python's `str.strip()` on a character list. -/
def pyStripL (l : List Char) : List Char :=
  rstripWs (l.dropWhile pyIsSpace)

/-- Python's `str.strip()`. -/
def pyStrip (s : String) : String :=
  String.mk (pyStripL s.toList)

/-- Python's `str.startswith`. -/
def pyStartswith (s p : String) : Bool :=
  p.toList.isPrefixOf s.toList

/-- Python's `str.endswith`. -/
def pyEndswith (s p : String) : Bool :=
  p.toList.isSuffixOf s.toList

/-- Numeric value of an ASCII digit character. -/
def digitVal (c : Char) : Nat :=
  c.toNat - 48

/-- Python `int(...)` on a string of ASCII digits. -/
def digitsToNat (l : List Char) : Nat :=
  l.foldl (fun a c => a * 10 + digitVal c) 0

/-- The ASCII digit character of a value below ten. -/
def digitChar (d : Nat) : Char :=
  Char.ofNat (48 + d)

/-- Fuel-driven decimal rendering (structural recursion on the fuel, so
that it evaluates by kernel reduction; the fuel is always sufficient at
the use site below). -/
def natToDecimalAux : Nat → Nat → List Char
  | 0, _ => []
  | fuel + 1, n =>
    if n < 10 then [digitChar n]
    else natToDecimalAux fuel (n / 10) ++ [digitChar (n % 10)]

/-- Decimal rendering of a natural number, as produced by Python's
f-string formatting of an `int`. -/
def natToDecimal (n : Nat) : List Char :=
  natToDecimalAux (n + 1) n

/-- Decimal rendering as a string. -/
def decStr (n : Nat) : String :=
  String.mk (natToDecimal n)

/-!  ### The working-tree gate (`check_only_two_files_modified`)

Both scripts run `git status --porcelain`, skip blank lines, take
`line[3:].strip()` as the path of each remaining line, and hard-exit unless
the resulting path set is exactly `{Cargo.toml, Cargo.lock}`.  -/

/-- The paths extracted from the porcelain status lines: blank lines are
skipped, and each remaining line contributes `line[3:].strip()`
(`bump_version.py` lines 46-52, `add_rc_version.py` lines 56-61). -/
def extractPaths (lines : List String) : List String :=
  (lines.filter (fun l => pyStrip l ≠ "")).map (fun l => pyStrip (l.drop 3))

/-- `check_only_two_files_modified`: `true` means the check passes (the
script continues), `false` means `sys.exit(...)` naming the observed path
set (`bump_version.py` lines 44-55, `add_rc_version.py` lines 54-64). -/
def check_only_two_files_modified (lines : List String) : Bool :=
  decide ((extractPaths lines).toFinset = ({"Cargo.toml", "Cargo.lock"} : Finset String))

/-!  ### The per-file diff gate (`extract_single_line_change`)

Both scripts take the `git diff --unified=0` output of one file, skip the
metadata lines (`+++`, `---`, `@@`, `diff `), collect the payloads of the
`+`/`-` lines, and hard-exit unless there is exactly one of each; on
success the pair `(removed.strip(), added.strip())` is returned.  -/

/-- A diff line skipped as metadata (`bump_version.py` line 64,
`add_rc_version.py` line 73). -/
def isDiffMeta (l : String) : Bool :=
  pyStartswith l "+++" || pyStartswith l "---" || pyStartswith l "@@" || pyStartswith l "diff "

/-- The `(plus_lines, minus_lines)` partition of a unified diff's lines,
payloads only (`line[1:]`), metadata excluded (`bump_version.py`
lines 62-69, `add_rc_version.py` lines 71-78). -/
def diffPartition : List String → List String × List String
  | [] => ([], [])
  | l :: rest =>
    let pm := diffPartition rest
    if isDiffMeta l then pm
    else if pyStartswith l "+" then (l.drop 1 :: pm.1, pm.2)
    else if pyStartswith l "-" then (pm.1, l.drop 1 :: pm.2)
    else pm

/-- `extract_single_line_change` on the diff's lines: `none` models the
`sys.exit` on a partition whose size is not exactly one; on success the
result is `(minus_lines[0].strip(), plus_lines[0].strip())`
(`bump_version.py` lines 58-72, `add_rc_version.py` lines 67-81). -/
def extract_single_line_change (d : List String) : Option (String × String) :=
  match diffPartition d with
  | ([p], [m]) => some (pyStrip m, pyStrip p)
  | _ => none

/-- The pair-comparison step of `main`: both diffs must extract, and the
script continues iff `new_toml = new_lock` and `old_toml = old_lock`
(`bump_version.py` lines 131-134, `add_rc_version.py` lines 140-143). -/
def diffPairGate (dToml dLock : List String) : Bool :=
  match extract_single_line_change dToml, extract_single_line_change dLock with
  | some (o1, n1), some (o2, n2) => o1 == o2 && n1 == n2
  | _, _ => false

/-!  ### The build gate and its exit status

`bump_version.py` line 123-125 runs `rc = os.system("cargo build")` and, if
`rc != 0`, calls `sys.exit(rc)`.  On POSIX, `os.system` returns the raw
wait status, which for a normally terminated child with exit code `c` is
`c * 256`; and the operating system reports only the low 8 bits of the
status passed to `exit`, so a process calling `sys.exit(n)` is observed to
exit with `n % 256`.  `add_rc_version.py` line 136-137 instead calls
`sys.exit(1)`.  -/

/-- POSIX wait status returned by `os.system` for a child that terminated
normally with exit code `c` (the code is itself truncated to 8 bits by the
operating system). -/
def osSystemStatus (c : Nat) : Nat :=
  (c % 256) * 256

/-- The exit status of a process observed by its parent after `sys.exit n`:
the low 8 bits of `n`. -/
def observedExitStatus (n : Nat) : Nat :=
  n % 256

/-- The build step of `bump_version.py` (`main`, lines 123-125): given the
build command's exit code, `some e` means the pipeline terminates with
observed exit status `e`, `none` means it continues. -/
def bumpBuildStep (c : Nat) : Option Nat :=
  let rc := osSystemStatus c
  if rc ≠ 0 then some (observedExitStatus rc) else none

/-- The build step of `add_rc_version.py` (`main`, lines 136-137): `some e`
means the pipeline terminates with observed exit status `e`. -/
def addRcBuildStep (c : Nat) : Option Nat :=
  if osSystemStatus c ≠ 0 then some (observedExitStatus 1) else none

/-!  ### The pull-request API call (`github_api`)  -/

/-- Outcome of the underlying HTTP request: either a 2xx response with a
body, or an `HTTPError` carrying a status code and an error body. -/
inductive HttpResult where
  | success (body : String)
  | httpError (code : Nat) (body : String)

/-- `github_api`'s error handling (`bump_version.py` lines 98-112,
`add_rc_version.py` lines 107-120): a successful response is returned; an
`HTTPError` with code 422 is swallowed (`return None`, the pipeline
continues); any other `HTTPError` writes the body to stderr and calls
`sys.exit(e.code)`.  `Except.error (code, body)` models that fatal exit:
`code` is the argument passed to `sys.exit`, `body` the surfaced text. -/
def github_api (r : HttpResult) : Except (Nat × String) (Option String) :=
  match r with
  | .success body => .ok (some body)
  | .httpError code body =>
    if code = 422 then .ok none else .error (code, body)

/-!  ### The manifest line matchers

`re.match(r"^\s*\[package\]\s*$", line)` succeeds exactly when the line
stripped of surrounding whitespace is `[package]` (the trailing `\s*`
absorbs any terminator, and `$` also matches just before a final newline).

`re.match(r"^\s*\[.*\]\s*$", line)` succeeds exactly when the stripped line
starts with `[`, ends with `]`, has length at least 2, and — since `.`
does not match a newline — carries no newline between those brackets.  -/

/-- The `[package]` header test (`bump_version.py` lines 21 and 78,
`add_rc_version.py` lines 27 and 87). -/
def matchPkgHeader (s : String) : Bool :=
  pyStripL s.toList == "[package]".toList

/-- The any-section header test `^\s*\[.*\]\s*$` (`bump_version.py`
lines 23 and 81, `add_rc_version.py` lines 29 and 90). -/
def matchAnySection (s : String) : Bool :=
  match pyStripL s.toList with
  | '[' :: rest =>
    !rest.isEmpty && rest.getLast? == some ']' && !rest.dropLast.contains '\n'
  | _ => false

/-- One step of the "inside `[package]`" state machine that both the
editors and the readers run over the lines (`if`/`elif` on the two header
patterns; a non-header line leaves the flag unchanged). -/
def updFlag (inPkg : Bool) (line : String) : Bool :=
  if matchPkgHeader line then true
  else if matchAnySection line then false
  else inPkg

/-- Deterministic parse of the common prefix
`^(\s*)version(\s*)=(\s*)"(\d+)\.(\d+)\.(\d+)` shared by the version
regexes of both scripts.  Returns the three whitespace runs, the three
digit runs, and the remainder of the line after the third digit run.
Each `\s*` is committed greedily (the following literal is never a
whitespace character), as is each `\d+` (the following literal is never a
digit), so the deterministic parse agrees with the Python regex engine. -/
def parseVersionTriple (l : List Char) :
    Option ((List Char × List Char × List Char) × (List Char × List Char × List Char) × List Char) :=
  let w1 := l.takeWhile pyIsSpace
  match l.dropWhile pyIsSpace with
  | 'v' :: 'e' :: 'r' :: 's' :: 'i' :: 'o' :: 'n' :: r2 =>
    let w2 := r2.takeWhile pyIsSpace
    match r2.dropWhile pyIsSpace with
    | '=' :: r4 =>
      let w3 := r4.takeWhile pyIsSpace
      match r4.dropWhile pyIsSpace with
      | '"' :: r6 =>
        let d1 := r6.takeWhile Char.isDigit
        if d1.isEmpty then none else
        match r6.dropWhile Char.isDigit with
        | '.' :: r8 =>
          let d2 := r8.takeWhile Char.isDigit
          if d2.isEmpty then none else
          match r8.dropWhile Char.isDigit with
          | '.' :: r10 =>
            let d3 := r10.takeWhile Char.isDigit
            if d3.isEmpty then none else
            some ((w1, w2, w3), (d1, d2, d3), r10.dropWhile Char.isDigit)
          | _ => none
        | _ => none
      | _ => none
    | _ => none
  | _ => none

/-- The patch-mode editor's version regex
`^(\s*version\s*=\s*")(\d+)\.(\d+)\.(\d+)(".*)$` (`bump_version.py`
line 19), on a keepends line.  The closing quote must immediately follow
the third digit run; group 5 is that quote plus the rest of the line up to
(but excluding) a final newline, and the match fails if a newline occurs
anywhere but at the very end (`.` does not cross a newline and `$` only
matches at the end or just before a final newline).  Returns
`(group 1, major, minor, patch, group 5)` with the numerals converted by
`int` as in the script. -/
def versionMatchBump (line : String) :
    Option (List Char × Nat × Nat × Nat × List Char) :=
  match parseVersionTriple line.toList with
  | some ((w1, w2, w3), (d1, d2, d3), rest) =>
    match rest with
    | '"' :: r12 =>
      if r12.dropLast.contains '\n' then none
      else
        let g5 := '"' :: (if r12.getLast? = some '\n' then r12.dropLast else r12)
        some (w1 ++ "version".toList ++ w2 ++ '=' :: w3 ++ ['"'],
              digitsToNat d1, digitsToNat d2, digitsToNat d3, g5)
    | _ => none
  | none => none

/-- The strict version reader's regex `\s*version\s*=\s*"(\d+\.\d+\.\d+)"`
(`bump_version.py` line 84), a prefix match on a bare content line;
returns group 1 exactly as written (leading zeros preserved). -/
def readVersionMatch (line : String) : Option String :=
  match parseVersionTriple line.toList with
  | some (_, (d1, d2, d3), rest) =>
    match rest with
    | '"' :: _ => some (String.mk (d1 ++ '.' :: d2 ++ '.' :: d3))
    | _ => none
  | none => none

/-- The suffix of `l` starting at its last `"`, or `none` if `l` carries no
quote: where the backtracking of `(?:[-+].*)?(".*)$` commits the `"` of
group 3. -/
def lastQuoteSuffix (l : List Char) : Option (List Char) :=
  let t := l.reverse.takeWhile (fun c => c ≠ '"')
  if t.length = l.length then none
  else some (l.drop (l.length - t.length - 1))

/-- The release-candidate editor's version regex
`^(\s*version\s*=\s*")(\d+\.\d+\.\d+)(?:[-+].*)?(".*)$`
(`add_rc_version.py` line 23), on a keepends line.  After the numeric
triple, either the closing quote follows at once (empty suffix, group 3 is
the rest of the line), or a `-`/`+` suffix runs up to the *last* quote of
the line (the greedy `.*` backtracks to the rightmost `"`), which starts
group 3.  As with the other `$`-anchored regex, a newline may only occur
at the very end of the line.  Returns `(group 1, group 2, group 3)`;
group 2 is the triple exactly as written. -/
def rcVersionMatch (line : String) : Option (List Char × List Char × List Char) :=
  match parseVersionTriple line.toList with
  | some ((w1, w2, w3), (d1, d2, d3), rest) =>
    if rest.dropLast.contains '\n' then none
    else
      let rclean := if rest.getLast? = some '\n' then rest.dropLast else rest
      let g1 := w1 ++ "version".toList ++ w2 ++ '=' :: w3 ++ ['"']
      let base := d1 ++ '.' :: d2 ++ '.' :: d3
      match rclean with
      | '"' :: _ => some (g1, base, rclean)
      | c :: _ =>
        if c = '-' || c = '+' then
          match lastQuoteSuffix rclean with
          | some g3 => some (g1, base, g3)
          | none => none
        else none
      | [] => none
  | none => none

/-- The permissive reader's regex `\s*version\s*=\s*"([^"]+)"`
(`add_rc_version.py` line 93), a prefix match on a bare content line:
after the opening quote, one or more non-quote characters up to a closing
quote; group 1 is returned whole (suffix included). -/
def readVersionFullMatch (line : String) : Option String :=
  match line.toList.dropWhile pyIsSpace with
  | 'v' :: 'e' :: 'r' :: 's' :: 'i' :: 'o' :: 'n' :: r2 =>
    match r2.dropWhile pyIsSpace with
    | '=' :: r4 =>
      match r4.dropWhile pyIsSpace with
      | '"' :: r6 =>
        let v := r6.takeWhile (fun c => c ≠ '"')
        if v.isEmpty then none
        else
          match r6.dropWhile (fun c => c ≠ '"') with
          | '"' :: _ => some (String.mk v)
          | _ => none
      | _ => none
    | _ => none
  | _ => none

/-!  ### The patch-mode editor (`bump_patch_in_cargo_toml`)  -/

/-- The replacement line built by `bump_patch_in_cargo_toml`
(`bump_version.py` lines 28-31): group 1, the re-rendered triple with the
patch component incremented, group 5, and a newline; if the original line
ended in `"\r\n"`, the final newline is replaced by `"\r\n"`
(`new_line[:-1] + "\r\n"`).  The `endswith("\r\n")` branch is kept to
mirror the source, but it is dead code for the lines the function actually
receives: `Path.read_text` (line 16) performs universal-newline
translation, so no keepends line ever contains a carriage return (see
`universalNewlines` and `bump_patch_in_cargo_toml_text` below). -/
def rewriteBump (line : String) (g1 : List Char) (a b c : Nat) (g5 : List Char) : String :=
  let base := g1 ++ natToDecimal a ++ '.' :: natToDecimal b ++ '.' :: natToDecimal (c + 1) ++ g5 ++ ['\n']
  if ['\r', '\n'].isSuffixOf line.toList then String.mk (base.dropLast ++ ['\r', '\n'])
  else String.mk base

/-- The line scan of `bump_patch_in_cargo_toml` (`bump_version.py`
lines 20-34): update the section flag on each line, and on the first line
that matches the version regex while the flag is set, replace that line
and stop.  `none` models the `sys.exit` when no line matches. -/
def bumpGo : Bool → List String → Option (List String)
  | _, [] => none
  | inPkg, line :: rest =>
    let f := updFlag inPkg line
    match (if f then versionMatchBump line else none) with
    | some (g1, a, b, c, g5) => some (rewriteBump line g1 a b c g5 :: rest)
    | none => (bumpGo f rest).map (fun out => line :: out)

/-- `bump_patch_in_cargo_toml` (`bump_version.py` lines 15-37) at the
line level: from the keepends lines of the manifest as produced by
line 16 (`read_text(...).splitlines(keepends=True)`, so every line is
LF-terminated — see `bump_patch_in_cargo_toml_text` for the file-level
function including the read's newline translation) to the keepends lines
it writes back; `none` models the fatal exit when no version line is
found in the `[package]` section. -/
def bump_patch_in_cargo_toml (txt : List String) : Option (List String) :=
  bumpGo false txt

/-- The universal-newline translation performed by `Path.read_text`
(`bump_version.py` line 16 opens the file in text mode with the default
`newline=None`): every `"\r\n"` and every lone `'\r'` becomes `'\n'`
before the text reaches `splitlines`. -/
def universalNewlines : List Char → List Char
  | [] => []
  | '\r' :: '\n' :: rest => '\n' :: universalNewlines rest
  | '\r' :: rest => '\n' :: universalNewlines rest
  | c :: rest => c :: universalNewlines rest

/-- `splitlines(keepends=True)` on the translated text: chunks cut after
each `'\n'`, plus a final unterminated chunk if the text does not end in
a newline.  (After the universal-newline translation no `'\r'` remains;
Python's rarer split boundaries — `\v`, `\f`, `\x1c`-`\x1e`, `\x85`,
U+2028/9 — are outside the manifest alphabet in scope, matching the
ASCII scoping of the whole embedding.) -/
def splitAux (acc : List Char) : List Char → List String
  | [] => if acc.isEmpty then [] else [String.mk acc.reverse]
  | c :: rest =>
    if c = '\n' then String.mk (acc.reverse ++ ['\n']) :: splitAux [] rest
    else splitAux (c :: acc) rest

/-- `splitlines(keepends=True)` of a translated text. -/
def splitlinesKeep (t : List Char) : List String :=
  splitAux [] t

/-- `"".join(txt)` (`bump_version.py` line 37). -/
def joinAll (ls : List String) : List Char :=
  (ls.map String.toList).flatten

/-- `bump_patch_in_cargo_toml` at the file level (`bump_version.py`
lines 15-37): from the raw text of the file to the raw text written back,
including line 16's universal-newline translation and split, and
line 37's join. -/
def bump_patch_in_cargo_toml_text (raw : List Char) : Option (List Char) :=
  (bumpGo false (splitlinesKeep (universalNewlines raw))).map joinAll

/-!  ### The version readers  -/

/-- The scan shared by `read_version_from_toml` (`bump_version.py`
lines 75-87) and `read_version_from_toml_full` (`add_rc_version.py`
lines 84-96), over bare content lines, parameterised by the version
matcher: a `[package]` header sets the flag and `continue`s, any other
header clears it, and the first matching line inside the section is
returned.  `none` models the fatal `sys.exit("version not found ...")`. -/
def readGoWith (M : String → Option String) : Bool → List String → Option String
  | _, [] => none
  | inPkg, line :: rest =>
    if matchPkgHeader line then readGoWith M true rest
    else
      let f := if matchAnySection line then false else inPkg
      match (if f then M line else none) with
      | some v => some v
      | none => readGoWith M f rest

/-- `read_version_from_toml` (`bump_version.py` lines 75-87). -/
def read_version_from_toml (lines : List String) : Option String :=
  readGoWith readVersionMatch false lines

/-- `read_version_from_toml_full` (`add_rc_version.py` lines 84-96). -/
def read_version_from_toml_full (lines : List String) : Option String :=
  readGoWith readVersionFullMatch false lines

/-!  ### Line-shape helpers used to state the theorems  -/

/-- The bare content of a terminated line (drop the final character):
relates the keepends lines the editor writes to the `splitlines()` lines
the reader re-reads, for LF-terminated lines. -/
def stripNL (s : String) : String :=
  String.mk s.toList.dropLast

/-- An LF-terminated line: ends in `'\n'`, and its content carries no
`'\n'` or `'\r'` (so `splitlines` of the joined document restores exactly
these lines). -/
def isLFLine (s : String) : Bool :=
  match s.toList.getLast? with
  | some '\n' => !s.toList.dropLast.any (fun c => c = '\n' || c = '\r')
  | _ => false

/-!  ## Theorems  -/

/-- C1: the file-set gate passes exactly when the set of paths reported as
modified equals `{Cargo.toml, Cargo.lock}`, and fails (hard exit) for
every other status listing — extra paths, a missing path, or an empty
listing included. -/
theorem file_set_gate_iff (lines : List String) :
    check_only_two_files_modified lines = true ↔
      (∀ p, p ∈ extractPaths lines ↔ (p = "Cargo.toml" ∨ p = "Cargo.lock")) := by
  unfold check_only_two_files_modified
  rw [decide_eq_true_iff]
  constructor
  · intro h p
    have hp := Finset.ext_iff.mp h p
    simpa using hp
  · intro h
    apply Finset.ext
    intro p
    simpa using h p

/-- C2: the per-file diff gate succeeds exactly when the non-metadata
added partition and removed partition each have size one; in particular a
diff with two added lines and one removed line is rejected. -/
theorem diff_shape_gate :
    (∀ d : List String, (extract_single_line_change d).isSome = true ↔
        ((diffPartition d).1.length = 1 ∧ (diffPartition d).2.length = 1)) ∧
      extract_single_line_change ["diff --git a/Cargo.toml b/Cargo.toml",
        "--- a/Cargo.toml", "+++ b/Cargo.toml", "@@ -3 +3,2 @@",
        "-version = \"1.2.3\"", "+version = \"1.2.4\"", "+extra = \"x\""] = none := by
  constructor
  · intro d
    unfold extract_single_line_change
    rcases hd : diffPartition d with ⟨ps, ms⟩
    rcases ps with _ | ⟨a, _ | ⟨a2, ps⟩⟩ <;> rcases ms with _ | ⟨b, _ | ⟨b2, ms⟩⟩ <;>
      simp
  · decide

/-- C3: given that each of the two diffs produced exactly one added and
one removed payload, the pair-comparison step of `main` passes exactly
when the two `(removed, added)` pairs agree after stripping leading and
trailing whitespace from each payload. -/
theorem diff_pair_gate_iff (d1 d2 : List String) (p1 m1 p2 m2 : String)
    (h1 : diffPartition d1 = ([p1], [m1])) (h2 : diffPartition d2 = ([p2], [m2])) :
    diffPairGate d1 d2 = true ↔ (pyStrip m1 = pyStrip m2 ∧ pyStrip p1 = pyStrip p2) := by
  unfold diffPairGate extract_single_line_change
  rw [h1, h2]
  simp [Bool.and_eq_true, beq_iff_eq]

/-- Witness for C3 at a concrete pair of diffs differing only in
incidental whitespace. -/
theorem diff_pair_gate_iff_witness :
    diffPartition ["@@ -1 +1 @@", "-a", "+b"] = (["b"], ["a"]) ∧
      diffPartition ["@@ -1 +1 @@", "-  a", "+  b"] = (["  b"], ["  a"]) ∧
      diffPairGate ["@@ -1 +1 @@", "-a", "+b"] ["@@ -1 +1 @@", "-  a", "+  b"] = true :=
  ⟨by decide, by decide,
    (diff_pair_gate_iff _ _ "b" "a" "  b" "  a" (by decide) (by decide)).mpr
      ⟨by decide, by decide⟩⟩

/-- C6 (counterexample): the patch-mode editor — one of the read paths the
claim quantifies over — fails to recognize a version field carrying a
`-` suffix: on a manifest whose package section holds
`version = "1.2.3-rc.1"` it exits instead of parsing the base triple. -/
theorem suffix_not_parsed_counterexample :
    bump_patch_in_cargo_toml ["[package]\n", "version = \"1.2.3-rc.1\"\n"] = none := by
  decide

/-- C6 (amended): only the release-candidate editor and the permissive
reader tolerate a suffixed version; the patch-mode editor's regex and the
strict reader's regex require the closing quote immediately after the
numeric triple, so on every line whose version value carries a `-`/`+`
suffix after the triple they treat the field as absent. -/
theorem suffix_read_paths_amended :
    (∀ (line : String) (w1 w2 w3 d1 d2 d3 r : List Char) (c : Char),
        parseVersionTriple line.toList = some ((w1, w2, w3), (d1, d2, d3), c :: r) →
        (c = '-' ∨ c = '+') →
        versionMatchBump line = none ∧ readVersionMatch line = none) ∧
      versionMatchBump "version = \"1.2.3-rc.1\"\n" = none ∧
      readVersionMatch "version = \"1.2.3-rc.1\"" = none ∧
      rcVersionMatch "version = \"1.2.3-rc.1\"\n" =
        some ("version = \"".toList, "1.2.3".toList, ['"']) ∧
      readVersionFullMatch "version = \"1.2.3-rc.1\"" = some "1.2.3-rc.1" ∧
      read_version_from_toml ["[package]", "version = \"1.2.3-rc.1\""] = none ∧
      read_version_from_toml_full ["[package]", "version = \"1.2.3-rc.1\""] =
        some "1.2.3-rc.1" := by
  refine ⟨?_, by decide, by decide, by decide, by decide, by decide, by decide⟩
  intro line w1 w2 w3 d1 d2 d3 r c hp hc
  rcases hc with h | h <;> subst h <;>
    exact ⟨by unfold versionMatchBump; rw [hp]; rfl, by unfold readVersionMatch; rw [hp]; rfl⟩

/-- Witness for the universal part of C6's amended statement, at the
concrete suffixed line. -/
theorem suffix_read_paths_amended_witness :
    parseVersionTriple ("version = \"1.2.3-rc.1\"\n").toList =
      some (([], [' '], [' ']), (['1'], ['2'], ['3']), '-' :: "rc.1\"\n".toList) ∧
      ('-' = '-' ∨ '-' = '+') ∧
      versionMatchBump "version = \"1.2.3-rc.1\"\n" = none ∧
      readVersionMatch "version = \"1.2.3-rc.1\"\n" = none :=
  ⟨by decide, Or.inl rfl,
    (suffix_read_paths_amended.1 "version = \"1.2.3-rc.1\"\n" [] [' '] [' ']
      ['1'] ['2'] ['3'] ("rc.1\"\n".toList) '-' (by decide) (Or.inl rfl)).1,
    (suffix_read_paths_amended.1 "version = \"1.2.3-rc.1\"\n" [] [' '] [' ']
      ['1'] ['2'] ['3'] ("rc.1\"\n".toList) '-' (by decide) (Or.inl rfl)).2⟩

/-- C8 (evaluation at the failing inputs): for every build that terminates
normally with a non-zero exit code, `bump_version.py` terminates the
pipeline with *observed exit status 0* — `os.system` returns the wait
status `c * 256` and `sys.exit` of that value is truncated to its low
8 bits — while `add_rc_version.py` (which calls `sys.exit(1)`) exits 1. -/
theorem build_failure_exit_status (c : Nat) (h1 : 0 < c) (h2 : c < 256) :
    bumpBuildStep c = some 0 ∧ addRcBuildStep c = some 1 := by
  unfold bumpBuildStep addRcBuildStep osSystemStatus observedExitStatus
  rw [Nat.mod_eq_of_lt h2]
  constructor
  · rw [if_pos (by omega)]
    rw [Nat.mul_mod_left]
  · rw [if_pos (by omega)]

/-- Witness for C8 at build exit code 1. -/
theorem build_failure_exit_status_witness :
    0 < 1 ∧ 1 < 256 ∧ bumpBuildStep 1 = some 0 ∧ addRcBuildStep 1 = some 1 :=
  ⟨by decide, by decide, (build_failure_exit_status 1 (by decide) (by decide)).1,
    (build_failure_exit_status 1 (by decide) (by decide)).2⟩

/-- C9: an HTTP 422 error response is swallowed as success (the pipeline
continues), and every other non-2xx error response is fatal: the body is
surfaced and `sys.exit` is invoked with the (non-zero) HTTP status code. -/
theorem github_api_gate :
    (∀ body, github_api (.httpError 422 body) = .ok none) ∧
      (∀ code body, 100 ≤ code → ¬(200 ≤ code ∧ code ≤ 299) → code ≠ 422 →
        github_api (.httpError code body) = .error (code, body) ∧ code ≠ 0) := by
  constructor
  · intro body
    rfl
  · intro code body hge _h2xx hne
    refine ⟨?_, by omega⟩
    show (if code = 422 then Except.ok none else Except.error (code, body)) =
      Except.error (code, body)
    rw [if_neg hne]

/-- Witness for C9 at codes 422 and 404. -/
theorem github_api_gate_witness :
    github_api (.httpError 422 "dup") = .ok none ∧
      (github_api (.httpError 404 "nf") = .error (404, "nf") ∧ 404 ≠ 0) :=
  ⟨github_api_gate.1 "dup",
    github_api_gate.2 404 "nf" (by decide) (by decide) (by decide)⟩

/-- C10: a removed line whose own content begins with `--` renders as a
diff line beginning with `---`, which the partition skips as metadata, so
it contributes nothing to the removed partition; on a realistic
one-added/one-removed diff of such a line, the removed partition is empty
and the shape gate reports a violation. -/
theorem dashdash_metadata_shadow :
    (∀ (pre post : List String) (s : String), pyStartswith s "--" = true →
        diffPartition (pre ++ ("-" ++ s) :: post) = diffPartition (pre ++ post)) ∧
      (diffPartition ["diff --git a/f b/f", "--- a/f", "+++ b/f", "@@ -1 +1 @@",
          "---removed", "+added"]).2 = [] ∧
      extract_single_line_change ["diff --git a/f b/f", "--- a/f", "+++ b/f",
          "@@ -1 +1 @@", "---removed", "+added"] = none := by
  refine ⟨?_, by decide, by decide⟩
  intro pre post s hs
  have htl : ("-" ++ s).toList = '-' :: s.toList := by
    show ("-" ++ s).data = '-' :: s.data
    rw [String.data_append]
    rfl
  have hmeta : isDiffMeta ("-" ++ s) = true := by
    have hs2 : ("--" : String).toList.isPrefixOf s.toList = true := hs
    have hs3 : ("--" : String).toList <+: s.toList :=
      List.isPrefixOf_iff_prefix.mp hs2
    have hpre : ("---" : String).toList.isPrefixOf ("-" ++ s).toList = true := by
      apply List.isPrefixOf_iff_prefix.mpr
      obtain ⟨t, ht⟩ := hs3
      refine ⟨t, ?_⟩
      rw [htl, ← ht]
      rfl
    unfold isDiffMeta pyStartswith
    rw [hpre]
    simp
  induction pre with
  | nil =>
    simp only [List.nil_append]
    simp only [diffPartition, hmeta, if_true]
  | cons l pre ih =>
    simp only [List.cons_append]
    simp only [diffPartition, ih]

/-- Witness for C10's universal part at a concrete metadata-shadowed
removed line. -/
theorem dashdash_metadata_shadow_witness :
    pyStartswith "--x" "--" = true ∧
      diffPartition (["+a"] ++ ("-" ++ "--x") :: []) = diffPartition (["+a"] ++ []) :=
  ⟨by decide, dashdash_metadata_shadow.1 ["+a"] [] "--x" (by decide)⟩

/-!  ## Supporting lemmas for the round-trip theorem (C7)  -/

/-- A greedy whitespace (or digit) run: `takeWhile`/`dropWhile` across an
append whose left part satisfies the predicate and whose right part starts
with a character that does not. -/
theorem takeWhile_append_right {p : Char → Bool} (w r : List Char)
    (hw : ∀ c ∈ w, p c = true) (hr : ∀ c, r.head? = some c → p c = false) :
    (w ++ r).takeWhile p = w ∧ (w ++ r).dropWhile p = r := by
  induction w with
  | nil =>
    simp only [List.nil_append]
    cases r with
    | nil => simp
    | cons c t =>
      have hc := hr c rfl
      simp [List.takeWhile_cons, List.dropWhile_cons, hc]
  | cons a w ih =>
    have ha : p a = true := hw a (List.mem_cons_self a w)
    have ih' := ih (fun c hc => hw c (List.mem_cons_of_mem a hc))
    simp [List.takeWhile_cons, List.dropWhile_cons, ha, ih'.1, ih'.2]

/-- `dropWhile` of an append ending in a single failing character. -/
theorem dropWhile_append_singleton {p : Char → Bool} (X : List Char) (c : Char)
    (hc : p c = false) : (X ++ [c]).dropWhile p = X.dropWhile p ++ [c] := by
  induction X with
  | nil => simp [List.dropWhile_cons, hc]
  | cons a X ih =>
    by_cases h : p a = true
    · simp [List.dropWhile_cons, h, ih]
    · have h' : p a = false := by revert h; cases p a <;> simp
      simp [List.dropWhile_cons, h']

/-- The head of a `dropWhile` result fails the predicate. -/
theorem head?_dropWhile_false {p : Char → Bool} (l : List Char) :
    ∀ c, (l.dropWhile p).head? = some c → p c = false := by
  induction l with
  | nil => intro c h; simp at h
  | cons a l ih =>
    intro c h
    rw [List.dropWhile_cons] at h
    by_cases ha : p a = true
    · rw [if_pos ha] at h
      exact ih c h
    · have ha' : p a = false := by revert ha; cases p a <;> simp
      rw [if_neg (by simp [ha'])] at h
      simp only [List.head?_cons, Option.some.injEq] at h
      rw [← h]
      exact ha'

/-- Right-stripping ignores a trailing whitespace character. -/
theorem rstripWs_append_ws (l : List Char) (c : Char) (hc : pyIsSpace c = true) :
    rstripWs (l ++ [c]) = rstripWs l := by
  unfold rstripWs
  rw [List.reverse_append]
  simp [List.dropWhile_cons, hc]

/-- Right-stripping commutes with a non-whitespace head. -/
theorem rstripWs_cons_not_ws (c : Char) (t : List Char) (hc : pyIsSpace c = false) :
    rstripWs (c :: t) = c :: rstripWs t := by
  unfold rstripWs
  rw [List.reverse_cons, dropWhile_append_singleton _ _ hc, List.reverse_append]
  simp

/-- Every list is its right-stripped part followed by trailing
whitespace. -/
theorem rstripWs_decomp (l : List Char) :
    ∃ w, (∀ c ∈ w, pyIsSpace c = true) ∧ l = rstripWs l ++ w := by
  refine ⟨(l.reverse.takeWhile pyIsSpace).reverse, ?_, ?_⟩
  · intro c hc
    rw [List.mem_reverse] at hc
    exact List.mem_takeWhile_imp hc
  · have h : l.reverse.takeWhile pyIsSpace ++ l.reverse.dropWhile pyIsSpace = l.reverse :=
      List.takeWhile_append_dropWhile pyIsSpace l.reverse
    calc l = l.reverse.reverse := (List.reverse_reverse l).symm
      _ = (l.reverse.takeWhile pyIsSpace ++ l.reverse.dropWhile pyIsSpace).reverse := by rw [h]
      _ = (l.reverse.dropWhile pyIsSpace).reverse ++ (l.reverse.takeWhile pyIsSpace).reverse := by
          rw [List.reverse_append]
      _ = rstripWs l ++ (l.reverse.takeWhile pyIsSpace).reverse := rfl


/-- Stripping is blind to a trailing newline: the header tests agree on a
keepends line and on its bare content. -/
theorem pyStripL_append_newline (m : List Char) :
    pyStripL (m ++ ['\n']) = pyStripL m := by
  unfold pyStripL
  rw [List.dropWhile_append]
  cases h : m.dropWhile pyIsSpace with
  | nil => decide
  | cons c t =>
    simp only [List.isEmpty_cons, Bool.false_eq_true, if_false]
    exact rstripWs_append_ws (c :: t) '\n' (by decide)

/-- Stripping a list that starts with whitespace followed by a
non-whitespace character. -/
theorem pyStripL_ws_cons (w : List Char) (c : Char) (t : List Char)
    (hw : ∀ x ∈ w, pyIsSpace x = true) (hc : pyIsSpace c = false) :
    pyStripL (w ++ c :: t) = c :: rstripWs t := by
  unfold pyStripL
  rw [(takeWhile_append_right w (c :: t) hw (by
    intro x hx
    simp only [List.head?_cons, Option.some.injEq] at hx
    rw [← hx]
    exact hc)).2]
  exact rstripWs_cons_not_ws c t hc

/-- The decimal rendering is never empty. -/
theorem natToDecimal_ne_nil (n : Nat) : natToDecimal n ≠ [] := by
  unfold natToDecimal natToDecimalAux
  by_cases h : n < 10
  · simp [h]
  · simp [h]

/-- Every character of the fuel-driven decimal rendering is an ASCII
digit. -/
theorem natToDecimalAux_digits (fuel : Nat) :
    ∀ n, ∀ c ∈ natToDecimalAux fuel n, c.isDigit = true := by
  induction fuel with
  | zero => intro n c hc; simp [natToDecimalAux] at hc
  | succ fuel ih =>
    intro n c hc
    unfold natToDecimalAux at hc
    by_cases h : n < 10
    · rw [if_pos h] at hc
      simp only [List.mem_singleton] at hc
      subst hc
      interval_cases n <;> decide
    · rw [if_neg h] at hc
      rw [List.mem_append] at hc
      rcases hc with hc | hc
      · exact ih (n / 10) c hc
      · simp only [List.mem_singleton] at hc
        subst hc
        have hm : n % 10 < 10 := Nat.mod_lt n (by omega)
        set m := n % 10 with hmdef
        clear_value m
        interval_cases m <;> decide

/-- Every character of the decimal rendering is an ASCII digit. -/
theorem natToDecimal_digits (n : Nat) : ∀ c ∈ natToDecimal n, c.isDigit = true :=
  natToDecimalAux_digits (n + 1) n

/-- A line whose content carries no carriage return does not end in
`"\r\n"`. -/
theorem not_crlf_suffix (m : List Char) (hr : '\r' ∉ m) :
    ['\r', '\n'].isSuffixOf (m ++ ['\n']) = false := by
  cases hb : ['\r', '\n'].isSuffixOf (m ++ ['\n']) with
  | false => rfl
  | true =>
    exfalso
    have hs : ['\r', '\n'] <:+ (m ++ ['\n']) := List.isSuffixOf_iff_suffix.mp hb
    obtain ⟨t, ht⟩ := hs
    have ht' : (t ++ ['\r']) ++ ['\n'] = m ++ ['\n'] := by
      rw [← ht]
      simp
    have hm : t ++ ['\r'] = m := List.append_cancel_right ht'
    exact hr (by rw [← hm]; simp)

/-- Destructuring an LF line into its newline-free, carriage-return-free
content. -/
theorem isLFLine_destruct (s : String) (h : isLFLine s = true) :
    ∃ m, s.toList = m ++ ['\n'] ∧ '\n' ∉ m ∧ '\r' ∉ m := by
  unfold isLFLine at h
  split at h
  case _ heq =>
    rw [Bool.not_eq_true'] at h
    refine ⟨s.toList.dropLast, (List.dropLast_append_getLast? '\n' heq).symm, ?_, ?_⟩
    · intro hmem
      have h2 := List.any_eq_false.mp h '\n' hmem
      simp at h2
    · intro hmem
      have h2 := List.any_eq_false.mp h '\r' hmem
      simp at h2
  case _ => simp at h

/-- Parsing a line of the exact shape
`\s* version \s* = \s* " digits . digits . digits rest` recovers its
components (the greedy runs commit exactly as decomposed, since each run
is followed by a character outside its class). -/
theorem parseVersionTriple_of_shape (w1 w2 w3 d1 d2 d3 rest : List Char)
    (hw1 : ∀ c ∈ w1, pyIsSpace c = true) (hw2 : ∀ c ∈ w2, pyIsSpace c = true)
    (hw3 : ∀ c ∈ w3, pyIsSpace c = true)
    (hd1 : d1 ≠ []) (hd1d : ∀ c ∈ d1, c.isDigit = true)
    (hd2 : d2 ≠ []) (hd2d : ∀ c ∈ d2, c.isDigit = true)
    (hd3 : d3 ≠ []) (hd3d : ∀ c ∈ d3, c.isDigit = true)
    (hrest : ∀ c, rest.head? = some c → c.isDigit = false) :
    parseVersionTriple (w1 ++ ('v' :: 'e' :: 'r' :: 's' :: 'i' :: 'o' :: 'n' ::
        (w2 ++ ('=' :: (w3 ++ ('"' :: (d1 ++ ('.' :: (d2 ++ ('.' :: (d3 ++ rest))))))))))) =
      some ((w1, w2, w3), (d1, d2, d3), rest) := by
  have s1 := takeWhile_append_right w1
    ('v' :: 'e' :: 'r' :: 's' :: 'i' :: 'o' :: 'n' ::
      (w2 ++ ('=' :: (w3 ++ ('"' :: (d1 ++ ('.' :: (d2 ++ ('.' :: (d3 ++ rest)))))))))) hw1
    (by intro c hc; simp only [List.head?_cons, Option.some.injEq] at hc; rw [← hc]; decide)
  have s2 := takeWhile_append_right w2
    ('=' :: (w3 ++ ('"' :: (d1 ++ ('.' :: (d2 ++ ('.' :: (d3 ++ rest)))))))) hw2
    (by intro c hc; simp only [List.head?_cons, Option.some.injEq] at hc; rw [← hc]; decide)
  have s3 := takeWhile_append_right w3
    ('"' :: (d1 ++ ('.' :: (d2 ++ ('.' :: (d3 ++ rest)))))) hw3
    (by intro c hc; simp only [List.head?_cons, Option.some.injEq] at hc; rw [← hc]; decide)
  have s4 := takeWhile_append_right d1 ('.' :: (d2 ++ ('.' :: (d3 ++ rest)))) hd1d
    (by intro c hc; simp only [List.head?_cons, Option.some.injEq] at hc; rw [← hc]; decide)
  have s5 := takeWhile_append_right d2 ('.' :: (d3 ++ rest)) hd2d
    (by intro c hc; simp only [List.head?_cons, Option.some.injEq] at hc; rw [← hc]; decide)
  have s6 := takeWhile_append_right d3 rest hd3d hrest
  have hne1 : d1.isEmpty = false := by
    cases d1
    · exact absurd rfl hd1
    · rfl
  have hne2 : d2.isEmpty = false := by
    cases d2
    · exact absurd rfl hd2
    · rfl
  have hne3 : d3.isEmpty = false := by
    cases d3
    · exact absurd rfl hd3
    · rfl
  simp only [parseVersionTriple, s1.1, s1.2, s2.1, s2.2, s3.1, s3.2, s4.1, s4.2,
    s5.1, s5.2, s6.1, s6.2, hne1, hne2, hne3, Bool.false_eq_true, if_false]

/-- Soundness of the version-prefix parse: a successful parse decomposes
the line into whitespace runs, the literal fragments, and digit runs,
with the remainder starting on a non-digit. -/
theorem parseVersionTriple_sound (l w1 w2 w3 d1 d2 d3 rest : List Char)
    (h : parseVersionTriple l = some ((w1, w2, w3), (d1, d2, d3), rest)) :
    l = w1 ++ ('v' :: 'e' :: 'r' :: 's' :: 'i' :: 'o' :: 'n' ::
        (w2 ++ ('=' :: (w3 ++ ('"' :: (d1 ++ ('.' :: (d2 ++ ('.' :: (d3 ++ rest)))))))))) ∧
      (∀ c ∈ w1, pyIsSpace c = true) ∧ (∀ c ∈ w2, pyIsSpace c = true) ∧
      (∀ c ∈ w3, pyIsSpace c = true) ∧
      d1 ≠ [] ∧ (∀ c ∈ d1, c.isDigit = true) ∧
      d2 ≠ [] ∧ (∀ c ∈ d2, c.isDigit = true) ∧
      d3 ≠ [] ∧ (∀ c ∈ d3, c.isDigit = true) ∧
      (∀ c, rest.head? = some c → c.isDigit = false) := by
  simp only [parseVersionTriple] at h
  split at h
  case _ r2 heq1 =>
    split at h
    case _ r4 heq2 =>
      split at h
      case _ r6 heq3 =>
        split at h
        case _ hemp1 => simp at h
        case _ hemp1 =>
          split at h
          case _ r8 heq4 =>
            split at h
            case _ hemp2 => simp at h
            case _ hemp2 =>
              split at h
              case _ r10 heq5 =>
                split at h
                case _ hemp3 => simp at h
                case _ hemp3 =>
                  simp only [Option.some.injEq, Prod.mk.injEq] at h
                  obtain ⟨⟨e1, e2, e3⟩, ⟨e4, e5, e6⟩, e7⟩ := h
                  subst e1 e2 e3 e4 e5 e6 e7
                  refine ⟨?_, ?_, ?_, ?_, ?_, ?_, ?_, ?_, ?_, ?_, ?_⟩
                  · symm
                    rw [List.takeWhile_append_dropWhile Char.isDigit r10]
                    rw [← heq5]
                    rw [List.takeWhile_append_dropWhile Char.isDigit r8]
                    rw [← heq4]
                    rw [List.takeWhile_append_dropWhile Char.isDigit r6]
                    rw [← heq3]
                    rw [List.takeWhile_append_dropWhile pyIsSpace r4]
                    rw [← heq2]
                    rw [List.takeWhile_append_dropWhile pyIsSpace r2]
                    rw [← heq1]
                    rw [List.takeWhile_append_dropWhile pyIsSpace l]
                  · intro c hc; exact List.mem_takeWhile_imp hc
                  · intro c hc; exact List.mem_takeWhile_imp hc
                  · intro c hc; exact List.mem_takeWhile_imp hc
                  · intro hnil; exact hemp1 (by rw [hnil]; rfl)
                  · intro c hc; exact List.mem_takeWhile_imp hc
                  · intro hnil; exact hemp2 (by rw [hnil]; rfl)
                  · intro c hc; exact List.mem_takeWhile_imp hc
                  · intro hnil; exact hemp3 (by rw [hnil]; rfl)
                  · intro c hc; exact List.mem_takeWhile_imp hc
                  · exact head?_dropWhile_false r10
              case _ heq5 => simp at h
          case _ heq4 => simp at h
      case _ heq3 => simp at h
    case _ heq2 => simp at h
  case _ heq1 => simp at h

/-- Appending the line terminator to a successfully parsed content line
extends only the post-triple remainder (`\s`/`\d` runs cannot absorb a
final newline that sits after the closing context). -/
theorem parseVersionTriple_append_newline (m w1 w2 w3 d1 d2 d3 rest : List Char)
    (h : parseVersionTriple m = some ((w1, w2, w3), (d1, d2, d3), rest)) :
    parseVersionTriple (m ++ ['\n']) = some ((w1, w2, w3), (d1, d2, d3), rest ++ ['\n']) := by
  obtain ⟨hshape, hw1, hw2, hw3, hd1, hd1d, hd2, hd2d, hd3, hd3d, hrest⟩ :=
    parseVersionTriple_sound m w1 w2 w3 d1 d2 d3 rest h
  have hr' : ∀ c, (rest ++ ['\n']).head? = some c → c.isDigit = false := by
    cases rest with
    | nil =>
      intro c hc
      simp only [List.nil_append, List.head?_cons, Option.some.injEq] at hc
      rw [← hc]
      decide
    | cons a t =>
      intro c hc
      simp only [List.cons_append, List.head?_cons, Option.some.injEq] at hc
      exact hrest c (by rw [← hc]; rfl)
  have hmain := parseVersionTriple_of_shape w1 w2 w3 d1 d2 d3 (rest ++ ['\n'])
    hw1 hw2 hw3 hd1 hd1d hd2 hd2d hd3 hd3d hr'
  rw [hshape]
  simp only [List.cons_append, List.append_assoc]
  simp only [List.cons_append, List.append_assoc] at hmain
  exact hmain


/-- If the keepends form of a newline-free content line fails the
editor's version regex, the bare content fails the reader's regex. -/
theorem readVersionMatch_none_of_bump_none (line : String) (m : List Char)
    (hline : line.toList = m ++ ['\n']) (hm : '\n' ∉ m)
    (hb : versionMatchBump line = none) :
    readVersionMatch (String.mk m) = none := by
  cases hr : readVersionMatch (String.mk m) with
  | none => rfl
  | some v =>
    exfalso
    unfold readVersionMatch at hr
    split at hr
    · split at hr
      · rename_i fst d1 d2 d3 x r12 heq
        obtain ⟨w1, w2, w3⟩ := fst
        have hmm : parseVersionTriple m = some ((w1, w2, w3), (d1, d2, d3), '"' :: r12) := heq
        have hsub : ∀ y ∈ ('"' :: r12), y ∈ m := by
          obtain ⟨hshape, -⟩ :=
            parseVersionTriple_sound m w1 w2 w3 d1 d2 d3 ('"' :: r12) hmm
          intro y hy
          simp only [List.mem_cons] at hy
          rw [hshape]
          simp only [List.mem_append, List.mem_cons]
          tauto
        have hstep := parseVersionTriple_append_newline m w1 w2 w3 d1 d2 d3 ('"' :: r12) hmm
        unfold versionMatchBump at hb
        rw [hline, hstep] at hb
        simp only [List.cons_append] at hb
        rw [List.dropLast_concat] at hb
        have hnr12 : r12.contains '\n' = false := by
          have hnin : '\n' ∉ r12 := by
            intro hx
            exact hm (hsub '\n' (List.mem_cons_of_mem _ hx))
          simp [hnin]
        rw [hnr12] at hb
        simp at hb
      · simp at hr
    · simp at hr

/-- Structure of a successful editor match: the line starts with
whitespace then `version`, and the captured groups have the shapes the
rewriting step relies on. -/
theorem versionMatchBump_sound (line : String) (g1 : List Char) (a b c : Nat) (g5 : List Char)
    (h : versionMatchBump line = some (g1, a, b, c, g5)) :
    ∃ w1 w2 w3 r0 g5t,
      line.toList = w1 ++ ('v' :: 'e' :: 'r' :: 's' :: 'i' :: 'o' :: 'n' :: r0) ∧
      (∀ x ∈ w1, pyIsSpace x = true) ∧ (∀ x ∈ w2, pyIsSpace x = true) ∧
      (∀ x ∈ w3, pyIsSpace x = true) ∧
      g1 = w1 ++ "version".toList ++ w2 ++ '=' :: w3 ++ ['"'] ∧
      g5 = '"' :: g5t := by
  unfold versionMatchBump at h
  split at h
  · split at h
    · split at h
      · simp at h
      · rename_i w1 w2 w3 d1 d2 d3 x r12 heq hcont
        simp only [Option.some.injEq, Prod.mk.injEq] at h
        obtain ⟨hg1, ha, hbb, hcc, hg5⟩ := h
        have hs := parseVersionTriple_sound line.toList w1 w2 w3 d1 d2 d3 ('"' :: r12) heq
        exact ⟨w1, w2, w3, _, _, hs.1, hs.2.1, hs.2.2.1, hs.2.2.2.1, hg1.symm, hg5.symm⟩
    · simp at h
  · simp at h

/-- A string whose stripped form starts with a character other than `[`
is not the `[package]` header. -/
theorem matchPkgHeader_eq_false_of_head (s : String) (c : Char) (t : List Char)
    (h : pyStripL s.toList = c :: t) (hc : c ≠ '[') : matchPkgHeader s = false := by
  unfold matchPkgHeader
  rw [h, beq_eq_false_iff_ne]
  intro hcc
  have hhd : "[package]".toList = '[' :: "package]".toList := rfl
  rw [hhd] at hcc
  injection hcc with h1 _
  exact hc h1

/-- A string whose stripped form starts with a character other than `[`
is not a section header. -/
theorem matchAnySection_eq_false_of_head (s : String) (c : Char) (t : List Char)
    (h : pyStripL s.toList = c :: t) (hc : c ≠ '[') : matchAnySection s = false := by
  unfold matchAnySection
  rw [h]
  split
  · rename_i rest heq
    injection heq with h1 _
    exact absurd h1 hc
  · rfl

/-- A line that begins with whitespace and then `version` is neither the
`[package]` header nor any section header. -/
theorem matchers_false_of_version_head (s : String) (w1 r0 : List Char)
    (hs : s.toList = w1 ++ ('v' :: r0)) (hw1 : ∀ x ∈ w1, pyIsSpace x = true) :
    matchPkgHeader s = false ∧ matchAnySection s = false := by
  have hstrip : pyStripL s.toList = 'v' :: rstripWs r0 := by
    rw [hs]
    exact pyStripL_ws_cons w1 'v' r0 hw1 (by decide)
  exact ⟨matchPkgHeader_eq_false_of_head s 'v' _ hstrip (by decide),
    matchAnySection_eq_false_of_head s 'v' _ hstrip (by decide)⟩

/-- The `[package]` header never matches the reader's version regex. -/
theorem readVersionMatch_none_of_pkgHeader (s : String) (h : matchPkgHeader s = true) :
    readVersionMatch s = none := by
  have hstrip : pyStripL s.toList = "[package]".toList := eq_of_beq h
  obtain ⟨wtr, hwtr, hdec⟩ := rstripWs_decomp (s.toList.dropWhile pyIsSpace)
  have hdrop : s.toList.dropWhile pyIsSpace = '[' :: ("package]".toList ++ wtr) := by
    calc s.toList.dropWhile pyIsSpace
        = rstripWs (s.toList.dropWhile pyIsSpace) ++ wtr := hdec
      _ = "[package]".toList ++ wtr := by
          rw [show rstripWs (s.toList.dropWhile pyIsSpace) = pyStripL s.toList from rfl, hstrip]
      _ = '[' :: ("package]".toList ++ wtr) := rfl
  have hparse : parseVersionTriple s.toList = none := by
    unfold parseVersionTriple
    rw [hdrop]
    split
    · rename_i r2 heq
      injection heq with h1 _
      exact absurd h1.symm (by decide)
    · rfl
  unfold readVersionMatch
  rw [hparse]

/-- On a line that does not end in `"\r\n"`, the rewriting step emits the
plain LF form. -/
theorem rewriteBump_lf (line : String) (g1 : List Char) (a b c : Nat) (g5 : List Char)
    (h : ['\r', '\n'].isSuffixOf line.toList = false) :
    rewriteBump line g1 a b c g5 =
      String.mk (g1 ++ natToDecimal a ++ '.' :: natToDecimal b ++ '.' ::
        natToDecimal (c + 1) ++ g5 ++ ['\n']) := by
  unfold rewriteBump
  rw [h]
  simp

/-- `String.mk` then `toList` is the identity on character lists. -/
theorem mk_toList (Y : List Char) : (String.mk Y).toList = Y := rfl

/-- The reader's regex recovers the triple from a line the editor just
wrote (group 1, the re-rendered triple, group 5). -/
theorem readVersionMatch_rewritten (w1 w2 w3 g5t : List Char) (a b cc : Nat)
    (hw1 : ∀ x ∈ w1, pyIsSpace x = true) (hw2 : ∀ x ∈ w2, pyIsSpace x = true)
    (hw3 : ∀ x ∈ w3, pyIsSpace x = true) :
    readVersionMatch (String.mk ((w1 ++ "version".toList ++ w2 ++ '=' :: w3 ++ ['"']) ++
        natToDecimal a ++ '.' :: natToDecimal b ++ '.' :: natToDecimal cc ++ ('"' :: g5t))) =
      some (String.mk (natToDecimal a ++ '.' :: natToDecimal b ++ '.' :: natToDecimal cc)) := by
  have hparse := parseVersionTriple_of_shape w1 w2 w3 (natToDecimal a) (natToDecimal b)
    (natToDecimal cc) ('"' :: g5t) hw1 hw2 hw3 (natToDecimal_ne_nil a) (natToDecimal_digits a)
    (natToDecimal_ne_nil b) (natToDecimal_digits b) (natToDecimal_ne_nil cc)
    (natToDecimal_digits cc)
    (by intro ch hch; simp only [List.head?_cons, Option.some.injEq] at hch; rw [← hch]; decide)
  unfold readVersionMatch
  rw [show ((String.mk ((w1 ++ "version".toList ++ w2 ++ '=' :: w3 ++ ['"']) ++
      natToDecimal a ++ '.' :: natToDecimal b ++ '.' :: natToDecimal cc ++ ('"' :: g5t))).toList)
      = (w1 ++ "version".toList ++ w2 ++ '=' :: w3 ++ ['"']) ++
        natToDecimal a ++ '.' :: natToDecimal b ++ '.' :: natToDecimal cc ++ ('"' :: g5t) from rfl]
  rw [show (w1 ++ "version".toList ++ w2 ++ '=' :: w3 ++ ['"']) ++
      natToDecimal a ++ '.' :: natToDecimal b ++ '.' :: natToDecimal cc ++ ('"' :: g5t)
      = w1 ++ ('v' :: 'e' :: 'r' :: 's' :: 'i' :: 'o' :: 'n' :: (w2 ++ ('=' :: (w3 ++ ('"' ::
        (natToDecimal a ++ ('.' :: (natToDecimal b ++ ('.' :: (natToDecimal cc ++
          ('"' :: g5t))))))))))) from by
    simp only [show "version".toList = ['v', 'e', 'r', 's', 'i', 'o', 'n'] from rfl,
      List.cons_append, List.nil_append, List.append_assoc]]
  rw [hparse]
  rfl

/-- Round trip of the patch-mode line scan and the reader's line scan on
an LF manifest: the editor rewrites exactly one line, and the reader,
started on the written document from the same flag state, returns exactly
the re-rendered bumped triple. -/
theorem bumpGo_reader_round_trip (doc : List String) :
    ∀ (flag : Bool) (doc' : List String),
      (∀ l ∈ doc, isLFLine l = true) →
      bumpGo flag doc = some doc' →
      ∃ i line g1 a b c g5,
        doc[i]? = some line ∧
        versionMatchBump line = some (g1, a, b, c, g5) ∧
        doc' = doc.set i (rewriteBump line g1 a b c g5) ∧
        readGoWith readVersionMatch flag (doc'.map stripNL) =
          some (String.mk (natToDecimal a ++ '.' :: natToDecimal b ++ '.' ::
            natToDecimal (c + 1))) := by
  induction doc with
  | nil =>
    intro flag doc' _ hb
    simp [bumpGo] at hb
  | cons line rest ih =>
    intro flag doc' hLF hb
    have hLFline : isLFLine line = true := hLF line (List.mem_cons_self line rest)
    obtain ⟨m, hm_eq, hm_nn, hm_nr⟩ := isLFLine_destruct line hLFline
    by_cases hf : updFlag flag line = true
    · cases hvm : versionMatchBump line with
      | some g =>
        obtain ⟨g1, a, b, c, g5⟩ := g
        simp only [bumpGo, hf, if_true, hvm] at hb
        have hcons : rewriteBump line g1 a b c g5 :: rest = doc' := Option.some.inj hb
        subst hcons
        obtain ⟨w1, w2, w3, r0, g5t, hshape, hw1, hw2, hw3, hg1, hg5⟩ :=
          versionMatchBump_sound line g1 a b c g5 hvm
        have hcrlf : ['\r', '\n'].isSuffixOf line.toList = false := by
          rw [hm_eq]
          exact not_crlf_suffix m hm_nr
        have hrw := rewriteBump_lf line g1 a b c g5 hcrlf
        have hhdr := matchers_false_of_version_head line w1 _ hshape hw1
        have hflag : flag = true := by
          rw [← hf]
          unfold updFlag
          rw [hhdr.1, hhdr.2]
          simp
        subst hflag
        refine ⟨0, line, g1, a, b, c, g5, by simp, hvm, rfl, ?_⟩
        simp only [List.map_cons]
        have hstrip : stripNL (rewriteBump line g1 a b c g5) =
            String.mk (g1 ++ natToDecimal a ++ '.' :: natToDecimal b ++ '.' ::
              natToDecimal (c + 1) ++ g5) := by
          rw [hrw]
          unfold stripNL
          rw [mk_toList, List.dropLast_concat]
        rw [hstrip]
        have hmkeq : String.mk (g1 ++ natToDecimal a ++ '.' :: natToDecimal b ++ '.' ::
            natToDecimal (c + 1) ++ g5) =
            String.mk ((w1 ++ "version".toList ++ w2 ++ '=' :: w3 ++ ['"']) ++
              natToDecimal a ++ '.' :: natToDecimal b ++ '.' :: natToDecimal (c + 1) ++
              ('"' :: g5t)) := by
          rw [hg1, hg5]
        rw [hmkeq]
        have hcontent_shape : ((w1 ++ "version".toList ++ w2 ++ '=' :: w3 ++ ['"']) ++
            natToDecimal a ++ '.' :: natToDecimal b ++ '.' :: natToDecimal (c + 1) ++
            ('"' :: g5t)) = w1 ++ ('v' :: ('e' :: 'r' :: 's' :: 'i' :: 'o' :: 'n' ::
              (w2 ++ ('=' :: (w3 ++ ('"' :: (natToDecimal a ++ ('.' :: (natToDecimal b ++
                ('.' :: (natToDecimal (c + 1) ++ ('"' :: g5t)))))))))))) := by
          simp only [show "version".toList = ['v', 'e', 'r', 's', 'i', 'o', 'n'] from rfl,
            List.cons_append, List.nil_append, List.append_assoc]
        have hhdr2 := matchers_false_of_version_head
          (String.mk ((w1 ++ "version".toList ++ w2 ++ '=' :: w3 ++ ['"']) ++
            natToDecimal a ++ '.' :: natToDecimal b ++ '.' :: natToDecimal (c + 1) ++
            ('"' :: g5t))) w1 _ (by rw [mk_toList]; exact hcontent_shape) hw1
        have hread := readVersionMatch_rewritten w1 w2 w3 g5t a b (c + 1) hw1 hw2 hw3
        simp only [readGoWith, hhdr2.1, hhdr2.2, Bool.false_eq_true, if_false, if_true, hread]
      | none =>
        simp only [bumpGo, hf, if_true, hvm] at hb
        rw [Option.map_eq_some'] at hb
        obtain ⟨out, hout, hdoc'⟩ := hb
        have hcons : line :: out = doc' := hdoc'
        subst hcons
        obtain ⟨i, line₀, g1, a, b, c, g5, hget, hvm₀, hset, hread⟩ :=
          ih true out (fun l hl => hLF l (List.mem_cons_of_mem _ hl)) hout
        refine ⟨i + 1, line₀, g1, a, b, c, g5, ?_, hvm₀, ?_, ?_⟩
        · rw [List.getElem?_cons_succ]
          exact hget
        · rw [hset]
          rfl
        · simp only [List.map_cons]
          have hstripline : stripNL line = String.mk m := by
            unfold stripNL
            rw [hm_eq, List.dropLast_concat]
          rw [hstripline]
          have htrans : pyStripL (String.mk m).toList = pyStripL line.toList := by
            show pyStripL m = pyStripL line.toList
            rw [hm_eq]
            exact (pyStripL_append_newline m).symm
          have hpkg_eq : matchPkgHeader (String.mk m) = matchPkgHeader line := by
            unfold matchPkgHeader
            rw [htrans]
          have hany_eq : matchAnySection (String.mk m) = matchAnySection line := by
            unfold matchAnySection
            rw [htrans]
          by_cases hpkg : matchPkgHeader line = true
          · simp only [readGoWith, hpkg_eq, hpkg, if_true]
            exact hread
          · have hpkg' : matchPkgHeader line = false := by
              revert hpkg
              cases matchPkgHeader line <;> simp
            by_cases hany : matchAnySection line = true
            · exfalso
              unfold updFlag at hf
              rw [hpkg', hany] at hf
              simp at hf
            · have hany' : matchAnySection line = false := by
                revert hany
                cases matchAnySection line <;> simp
              have hflag : flag = true := by
                rw [← hf]
                unfold updFlag
                rw [hpkg', hany']
                simp
              have hnone : readVersionMatch (String.mk m) = none :=
                readVersionMatch_none_of_bump_none line m hm_eq hm_nn hvm
              simp only [readGoWith, hpkg_eq, hpkg', Bool.false_eq_true, if_false,
                hany_eq, hany', hflag, if_true, hnone]
              exact hread
    · have hf' : updFlag flag line = false := by
        revert hf
        cases updFlag flag line <;> simp
      simp only [bumpGo, hf', Bool.false_eq_true, if_false] at hb
      rw [Option.map_eq_some'] at hb
      obtain ⟨out, hout, hdoc'⟩ := hb
      have hcons : line :: out = doc' := hdoc'
      subst hcons
      obtain ⟨i, line₀, g1, a, b, c, g5, hget, hvm₀, hset, hread⟩ :=
        ih false out (fun l hl => hLF l (List.mem_cons_of_mem _ hl)) hout
      refine ⟨i + 1, line₀, g1, a, b, c, g5, ?_, hvm₀, ?_, ?_⟩
      · rw [List.getElem?_cons_succ]
        exact hget
      · rw [hset]
        rfl
      · simp only [List.map_cons]
        have hstripline : stripNL line = String.mk m := by
          unfold stripNL
          rw [hm_eq, List.dropLast_concat]
        rw [hstripline]
        have htrans : pyStripL (String.mk m).toList = pyStripL line.toList := by
          show pyStripL m = pyStripL line.toList
          rw [hm_eq]
          exact (pyStripL_append_newline m).symm
        have hpkg_eq : matchPkgHeader (String.mk m) = matchPkgHeader line := by
          unfold matchPkgHeader
          rw [htrans]
        have hany_eq : matchAnySection (String.mk m) = matchAnySection line := by
          unfold matchAnySection
          rw [htrans]
        have hpkg' : matchPkgHeader line = false := by
          by_contra hp
          have hp' : matchPkgHeader line = true := by
            revert hp
            cases matchPkgHeader line <;> simp
          unfold updFlag at hf'
          rw [hp'] at hf'
          simp at hf'
        by_cases hany : matchAnySection line = true
        · simp only [readGoWith, hpkg_eq, hpkg', Bool.false_eq_true, if_false,
            hany_eq, hany, if_true]
          exact hread
        · have hany' : matchAnySection line = false := by
            revert hany
            cases matchAnySection line <;> simp
          have hflagf : flag = false := by
            rw [← hf']
            unfold updFlag
            rw [hpkg', hany']
            simp
          simp only [readGoWith, hpkg_eq, hpkg', Bool.false_eq_true, if_false,
            hany_eq, hany', hflagf]
          exact hread

/-- The reader's scan returns nothing exactly when no line, at its
effective "inside `[package]`" state, matches the version pattern (the
`[package]` header itself never matches, which reconciles the reader's
`continue` with the quantification over all lines). -/
theorem readGoWith_none_iff (M : String → Option String)
    (hM : ∀ s, matchPkgHeader s = true → M s = none) (d : List String) :
    ∀ flag : Bool,
      (readGoWith M flag d = none ↔
        ∀ i line, d[i]? = some line →
          updFlag ((d.take i).foldl updFlag flag) line = true → M line = none) := by
  induction d with
  | nil =>
    intro flag
    constructor
    · intro _ i line hi
      simp at hi
    · intro _
      rfl
  | cons l rest ih =>
    intro flag
    have hsplit : (∀ i line, (l :: rest)[i]? = some line →
          updFlag (((l :: rest).take i).foldl updFlag flag) line = true → M line = none) ↔
        ((updFlag flag l = true → M l = none) ∧
          (∀ i line, rest[i]? = some line →
            updFlag ((rest.take i).foldl updFlag (updFlag flag l)) line = true →
              M line = none)) := by
      constructor
      · intro h
        constructor
        · intro hfl
          exact h 0 l (by simp) hfl
        · intro i line hi hfl
          exact h (i + 1) line (by rw [List.getElem?_cons_succ]; exact hi) hfl
      · rintro ⟨h0, hs⟩ i line hi hfl
        cases i with
        | zero =>
          have : l = line := by simpa using hi
          subst this
          exact h0 hfl
        | succ i =>
          exact hs i line (by rw [List.getElem?_cons_succ] at hi; exact hi) hfl
    rw [hsplit]
    by_cases hpkg : matchPkgHeader l = true
    · have hupd : updFlag flag l = true := by
        unfold updFlag
        rw [hpkg]
        simp
      have hL : readGoWith M flag (l :: rest) = readGoWith M true rest := by
        simp only [readGoWith, hpkg, if_true]
      rw [hL, ih true, hupd]
      constructor
      · intro h
        exact ⟨fun _ => hM l hpkg, h⟩
      · rintro ⟨_, hs⟩
        exact hs
    · have hpkg' : matchPkgHeader l = false := by
        revert hpkg
        cases matchPkgHeader l <;> simp
      by_cases hany : matchAnySection l = true
      · have hupd : updFlag flag l = false := by
          unfold updFlag
          rw [hpkg', hany]
          simp
        have hL : readGoWith M flag (l :: rest) = readGoWith M false rest := by
          simp only [readGoWith, hpkg', Bool.false_eq_true, if_false, hany, if_true]
        rw [hL, ih false, hupd]
        simp
      · have hany' : matchAnySection l = false := by
          revert hany
          cases matchAnySection l <;> simp
        have hupd : updFlag flag l = flag := by
          unfold updFlag
          rw [hpkg', hany']
          simp
        cases flag with
        | false =>
          have hL : readGoWith M false (l :: rest) = readGoWith M false rest := by
            simp only [readGoWith, hpkg', Bool.false_eq_true, if_false, hany']
          rw [hL, ih false, hupd]
          constructor
          · intro h
            exact ⟨fun hff => absurd hff (by simp), h⟩
          · rintro ⟨_, hs⟩
            exact hs
        | true =>
          cases hMl : M l with
          | some v =>
            have hL : readGoWith M true (l :: rest) = some v := by
              simp only [readGoWith, hpkg', Bool.false_eq_true, if_false, hany', if_true, hMl]
            rw [hL, hupd]
            constructor
            · intro h
              simp at h
            · rintro ⟨h0, _⟩
              exact h0 rfl
          | none =>
            have hL : readGoWith M true (l :: rest) = readGoWith M true rest := by
              simp only [readGoWith, hpkg', Bool.false_eq_true, if_false, hany', if_true, hMl]
            rw [hL, ih true, hupd]
            constructor
            · intro h
              exact ⟨fun _ => rfl, h⟩
            · rintro ⟨_, hs⟩
              exact hs

/-- C7: on an LF manifest the editor rewrites exactly one line, and the
reader, re-scanning the written document with the same section state
machine, returns exactly the new version string the editor produced (the
re-rendered triple with the patch component incremented); and the reader
fails precisely when no line of the document, at its effective
"inside `[package]`" state, matches the reader's version pattern. -/
theorem bump_read_round_trip :
    (∀ (doc doc' : List String),
      (∀ l ∈ doc, isLFLine l = true) →
      bump_patch_in_cargo_toml doc = some doc' →
      ∃ i line g1 a b c g5,
        doc[i]? = some line ∧
        versionMatchBump line = some (g1, a, b, c, g5) ∧
        doc' = doc.set i (rewriteBump line g1 a b c g5) ∧
        read_version_from_toml (doc'.map stripNL) =
          some (String.mk (natToDecimal a ++ '.' :: natToDecimal b ++ '.' ::
            natToDecimal (c + 1)))) ∧
    (∀ d : List String,
      read_version_from_toml d = none ↔
        ∀ i line, d[i]? = some line →
          updFlag ((d.take i).foldl updFlag false) line = true →
            readVersionMatch line = none) := by
  constructor
  · intro doc doc' hLF hb
    exact bumpGo_reader_round_trip doc false doc' hLF hb
  · intro d
    exact readGoWith_none_iff readVersionMatch readVersionMatch_none_of_pkgHeader d false

/-- Witness for C7 at a concrete two-line manifest. -/
theorem bump_read_round_trip_witness :
    (∀ l ∈ ["[package]\n", "version = \"1.2.3\"\n"], isLFLine l = true) ∧
      bump_patch_in_cargo_toml ["[package]\n", "version = \"1.2.3\"\n"] =
        some ["[package]\n", "version = \"1.2.4\"\n"] ∧
      (∃ i line g1 a b c g5,
        ["[package]\n", "version = \"1.2.3\"\n"][i]? = some line ∧
        versionMatchBump line = some (g1, a, b, c, g5) ∧
        ["[package]\n", "version = \"1.2.4\"\n"] =
          ["[package]\n", "version = \"1.2.3\"\n"].set i (rewriteBump line g1 a b c g5) ∧
        read_version_from_toml ((["[package]\n", "version = \"1.2.4\"\n"]).map stripNL) =
          some (String.mk (natToDecimal a ++ '.' :: natToDecimal b ++ '.' ::
            natToDecimal (c + 1)))) :=
  ⟨by decide, by decide,
    bump_read_round_trip.1 ["[package]\n", "version = \"1.2.3\"\n"]
      ["[package]\n", "version = \"1.2.4\"\n"] (by decide) (by decide)⟩

/-- Folding the digit accumulator over a final digit. -/
theorem digitsToNat_concat (l : List Char) (ch : Char) :
    digitsToNat (l ++ [ch]) = digitsToNat l * 10 + digitVal ch := by
  unfold digitsToNat
  rw [List.foldl_append]
  rfl

/-- `digitVal` inverts `digitChar` below ten. -/
theorem digitVal_digitChar (d : Nat) (h : d < 10) : digitVal (digitChar d) = d := by
  interval_cases d <;> decide

/-- Reading back the fuel-driven decimal rendering recovers the number. -/
theorem digitsToNat_natToDecimalAux (fuel : Nat) :
    ∀ n, n < fuel → digitsToNat (natToDecimalAux fuel n) = n := by
  induction fuel with
  | zero => intro n h; omega
  | succ fuel ih =>
    intro n h
    unfold natToDecimalAux
    by_cases h10 : n < 10
    · rw [if_pos h10]
      show digitsToNat [digitChar n] = n
      unfold digitsToNat
      simp [digitVal_digitChar n h10]
    · rw [if_neg h10]
      rw [digitsToNat_concat]
      have hdiv : n / 10 < fuel := by
        have h1 : n / 10 < n := Nat.div_lt_self (by omega) (by omega)
        omega
      rw [ih (n / 10) hdiv]
      rw [digitVal_digitChar (n % 10) (Nat.mod_lt n (by omega))]
      omega

/-- `int` of the decimal rendering is the identity: the digits the editor
writes are read back as the same numbers. -/
theorem digitsToNat_natToDecimal (n : Nat) : digitsToNat (natToDecimal n) = n :=
  digitsToNat_natToDecimalAux (n + 1) n (by omega)

/-- A member of a list is in its front part or is its last element. -/
theorem mem_dropLast_or_getLast (l : List Char) (x : Char) (hx : x ∈ l) :
    x ∈ l.dropLast ∨ l.getLast? = some x := by
  cases l with
  | nil => simp at hx
  | cons a t =>
    have hne : a :: t ≠ [] := List.cons_ne_nil a t
    rw [← List.dropLast_append_getLast hne] at hx
    rcases List.mem_append.mp hx with h | h
    · exact Or.inl h
    · right
      simp only [List.mem_singleton] at h
      rw [List.getLast?_eq_getLast (a :: t) hne, h]

/-- Group 5 of a successful editor match starts with the closing quote,
its tail is newline-free (the `$` anchor admits a newline only at the very
end of the line, and a final newline is stripped from the group), and its
tail's characters all come from the matched line. -/
theorem versionMatchBump_g5_facts (line : String) (g1 : List Char) (a b c : Nat)
    (g5 : List Char) (h : versionMatchBump line = some (g1, a, b, c, g5)) :
    ∃ g5t, g5 = '"' :: g5t ∧ '\n' ∉ g5t ∧ ∀ x ∈ g5t, x ∈ line.toList := by
  unfold versionMatchBump at h
  split at h
  · split at h
    · split at h
      · simp at h
      · rename_i w1 w2 w3 d1 d2 d3 x r12 heq hcont
        simp only [Option.some.injEq, Prod.mk.injEq] at h
        obtain ⟨hg1, ha, hbb, hcc, hg5⟩ := h
        simp at hcont
        have hsub : ∀ y ∈ r12, y ∈ line.toList := by
          obtain ⟨hshape, -⟩ :=
            parseVersionTriple_sound line.toList w1 w2 w3 d1 d2 d3 ('"' :: r12) heq
          intro y hy
          rw [hshape]
          simp only [List.mem_append, List.mem_cons]
          tauto
        refine ⟨if r12.getLast? = some '\n' then r12.dropLast else r12, hg5.symm, ?_, ?_⟩
        · by_cases hlast : r12.getLast? = some '\n'
          · rw [if_pos hlast]
            exact hcont
          · rw [if_neg hlast]
            intro hx
            rcases mem_dropLast_or_getLast r12 '\n' hx with h1 | h1
            · exact hcont h1
            · exact hlast h1
        · by_cases hlast : r12.getLast? = some '\n'
          · rw [if_pos hlast]
            intro y hy
            exact hsub y (List.dropLast_subset r12 hy)
          · rw [if_neg hlast]
            exact hsub
    · simp at h
  · simp at h

/-- A terminated line whose content does not end in a carriage return does
not end in `"\r\n"`. -/
theorem not_crlf_suffix_of_getLast (W : List Char) (h : W.getLast? ≠ some '\r') :
    ['\r', '\n'].isSuffixOf (W ++ ['\n']) = false := by
  cases hb : ['\r', '\n'].isSuffixOf (W ++ ['\n']) with
  | false => rfl
  | true =>
    exfalso
    obtain ⟨t, ht⟩ := List.isSuffixOf_iff_suffix.mp hb
    have ht' : (t ++ ['\r']) ++ ['\n'] = W ++ ['\n'] := by
      rw [← ht]
      simp
    have hW : t ++ ['\r'] = W := List.append_cancel_right ht'
    apply h
    rw [← hW]
    exact List.getLast?_concat ..

/-- The editor's version regex matches a line the editor itself just
wrote, recovering the same groups with the numerals it rendered (so a
second pass sees the same field, one patch further). -/
theorem versionMatchBump_rewritten (w1 w2 w3 g5t : List Char) (a b cc : Nat)
    (hw1 : ∀ x ∈ w1, pyIsSpace x = true) (hw2 : ∀ x ∈ w2, pyIsSpace x = true)
    (hw3 : ∀ x ∈ w3, pyIsSpace x = true) (hg5t : '\n' ∉ g5t) :
    versionMatchBump (String.mk ((w1 ++ "version".toList ++ w2 ++ '=' :: w3 ++ ['"']) ++
        natToDecimal a ++ '.' :: natToDecimal b ++ '.' :: natToDecimal cc ++
        ('"' :: g5t) ++ ['\n'])) =
      some (w1 ++ "version".toList ++ w2 ++ '=' :: w3 ++ ['"'], a, b, cc, '"' :: g5t) := by
  have hparse := parseVersionTriple_of_shape w1 w2 w3 (natToDecimal a) (natToDecimal b)
    (natToDecimal cc) ('"' :: (g5t ++ ['\n'])) hw1 hw2 hw3 (natToDecimal_ne_nil a)
    (natToDecimal_digits a) (natToDecimal_ne_nil b) (natToDecimal_digits b)
    (natToDecimal_ne_nil cc) (natToDecimal_digits cc)
    (by intro ch hch; simp only [List.head?_cons, Option.some.injEq] at hch; rw [← hch]; decide)
  unfold versionMatchBump
  rw [mk_toList]
  rw [show (w1 ++ "version".toList ++ w2 ++ '=' :: w3 ++ ['"']) ++
      natToDecimal a ++ '.' :: natToDecimal b ++ '.' :: natToDecimal cc ++
      ('"' :: g5t) ++ ['\n']
      = w1 ++ ('v' :: 'e' :: 'r' :: 's' :: 'i' :: 'o' :: 'n' :: (w2 ++ ('=' :: (w3 ++ ('"' ::
        (natToDecimal a ++ ('.' :: (natToDecimal b ++ ('.' :: (natToDecimal cc ++
          ('"' :: (g5t ++ ['\n'])))))))))))) from by
    simp only [show "version".toList = ['v', 'e', 'r', 's', 'i', 'o', 'n'] from rfl,
      List.cons_append, List.nil_append, List.append_assoc]]
  rw [hparse]
  have hc1 : (g5t ++ ['\n']).dropLast.contains '\n' = false := by
    rw [List.dropLast_concat]
    simp [hg5t]
  have hc2 : (g5t ++ ['\n']).getLast? = some '\n' := List.getLast?_concat ..
  simp [hc1, hc2, List.dropLast_concat, digitsToNat_natToDecimal, hg5t]

/-- The editor's scan succeeds whenever some line, at its effective
"inside `[package]`" state, matches the version regex. -/
theorem bumpGo_succeeds_of_match (doc : List String) :
    ∀ flag : Bool,
      (∃ i line, doc[i]? = some line ∧
        updFlag ((doc.take i).foldl updFlag flag) line = true ∧
        (versionMatchBump line).isSome = true) →
      (bumpGo flag doc).isSome = true := by
  induction doc with
  | nil =>
    rintro flag ⟨i, line, hi, -, -⟩
    simp at hi
  | cons l rest ih =>
    rintro flag ⟨i, line, hi, hfl, hsome⟩
    cases i with
    | zero =>
      have hl : l = line := by simpa using hi
      subst hl
      have hfl' : updFlag flag l = true := by simpa using hfl
      cases hvm : versionMatchBump l with
      | none =>
        rw [hvm] at hsome
        simp at hsome
      | some g =>
        obtain ⟨g1, a, b, c, g5⟩ := g
        simp [bumpGo, hfl', hvm]
    | succ i =>
      have hi' : rest[i]? = some line := by simpa using hi
      have hfl' : updFlag ((rest.take i).foldl updFlag (updFlag flag l)) line = true := hfl
      by_cases hf : updFlag flag l = true
      · cases hvm : versionMatchBump l with
        | some g =>
          obtain ⟨g1, a, b, c, g5⟩ := g
          simp [bumpGo, hf, hvm]
        | none =>
          have hrec := ih (updFlag flag l) ⟨i, line, hi', hfl', hsome⟩
          rw [hf] at hrec
          simp [bumpGo, hf, hvm, Option.isSome_map]
          exact hrec
      · have hf' : updFlag flag l = false := by
          revert hf
          cases updFlag flag l <;> simp
        have hrec := ih (updFlag flag l) ⟨i, line, hi', hfl', hsome⟩
        rw [hf'] at hrec
        simp [bumpGo, hf', Option.isSome_map]
        exact hrec

/-- Two passes of the editor's scan on an LF manifest: the first pass
rewrites exactly one line — the first version line inside the `[package]`
section — and a second pass, run on the written document from the same
flag state, rewrites the same line again, incrementing only the patch
component once more and leaving every other line untouched. -/
theorem bumpGo_twice (doc : List String) :
    ∀ (flag : Bool) (doc' : List String),
      (∀ l ∈ doc, isLFLine l = true) →
      bumpGo flag doc = some doc' →
      ∃ i line g1 a b c g5,
        doc[i]? = some line ∧
        updFlag ((doc.take i).foldl updFlag flag) line = true ∧
        versionMatchBump line = some (g1, a, b, c, g5) ∧
        doc' = doc.set i (String.mk (g1 ++ natToDecimal a ++ '.' :: natToDecimal b ++ '.' ::
          natToDecimal (c + 1) ++ g5 ++ ['\n'])) ∧
        bumpGo flag doc' = some (doc.set i (String.mk (g1 ++ natToDecimal a ++ '.' ::
          natToDecimal b ++ '.' :: natToDecimal (c + 2) ++ g5 ++ ['\n']))) := by
  induction doc with
  | nil =>
    intro flag doc' _ hb
    simp [bumpGo] at hb
  | cons line rest ih =>
    intro flag doc' hLF hb
    have hLFline : isLFLine line = true := hLF line (List.mem_cons_self line rest)
    obtain ⟨m, hm_eq, hm_nn, hm_nr⟩ := isLFLine_destruct line hLFline
    by_cases hf : updFlag flag line = true
    · cases hvm : versionMatchBump line with
      | some g =>
        obtain ⟨g1, a, b, c, g5⟩ := g
        simp only [bumpGo, hf, if_true, hvm] at hb
        have hcons : rewriteBump line g1 a b c g5 :: rest = doc' := Option.some.inj hb
        subst hcons
        obtain ⟨w1, w2, w3, r0, g5t0, hshape, hw1, hw2, hw3, hg1, hg50⟩ :=
          versionMatchBump_sound line g1 a b c g5 hvm
        obtain ⟨g5t, hg5_eq, hg5t_nn, hg5t_sub⟩ := versionMatchBump_g5_facts line g1 a b c g5 hvm
        have hcrlf : ['\r', '\n'].isSuffixOf line.toList = false := by
          rw [hm_eq]
          exact not_crlf_suffix m hm_nr
        have hrw := rewriteBump_lf line g1 a b c g5 hcrlf
        have hg5t_nr : '\r' ∉ g5t := by
          intro hx
          have hx2 := hg5t_sub '\r' hx
          rw [hm_eq] at hx2
          rcases List.mem_append.mp hx2 with h1 | h1
          · exact hm_nr h1
          · simp at h1
        have hhdr := matchers_false_of_version_head line w1 _ hshape hw1
        have hflag : flag = true := by
          rw [← hf]
          unfold updFlag
          rw [hhdr.1, hhdr.2]
          simp
        subst hflag
        refine ⟨0, line, g1, a, b, c, g5, by simp, by simpa using hf, hvm, ?_, ?_⟩
        · rw [hrw]
          rfl
        · rw [hrw]
          -- align the written line with its structured form
          have hmk1 : String.mk (g1 ++ natToDecimal a ++ '.' :: natToDecimal b ++ '.' ::
              natToDecimal (c + 1) ++ g5 ++ ['\n']) =
              String.mk ((w1 ++ "version".toList ++ w2 ++ '=' :: w3 ++ ['"']) ++
                natToDecimal a ++ '.' :: natToDecimal b ++ '.' :: natToDecimal (c + 1) ++
                ('"' :: g5t) ++ ['\n']) := by
            rw [hg1, hg5_eq]
          rw [hmk1]
          -- the written line is not a header
          have hshape2 : ((w1 ++ "version".toList ++ w2 ++ '=' :: w3 ++ ['"']) ++
              natToDecimal a ++ '.' :: natToDecimal b ++ '.' :: natToDecimal (c + 1) ++
              ('"' :: g5t) ++ ['\n']) = w1 ++ ('v' :: 'e' :: 'r' :: 's' :: 'i' :: 'o' :: 'n' ::
                (w2 ++ '=' :: (w3 ++ '"' :: (natToDecimal a ++ '.' :: (natToDecimal b ++
                  '.' :: (natToDecimal (c + 1) ++ '"' :: (g5t ++ ['\n']))))))) := by
            simp only [show "version".toList = ['v', 'e', 'r', 's', 'i', 'o', 'n'] from rfl,
              List.cons_append, List.nil_append, List.append_assoc]
          have hhdr2 := matchers_false_of_version_head
            (String.mk ((w1 ++ "version".toList ++ w2 ++ '=' :: w3 ++ ['"']) ++
              natToDecimal a ++ '.' :: natToDecimal b ++ '.' :: natToDecimal (c + 1) ++
              ('"' :: g5t) ++ ['\n'])) w1 _ (by rw [mk_toList]; exact hshape2) hw1
          have hupd2 : updFlag true (String.mk ((w1 ++ "version".toList ++ w2 ++ '=' ::
              w3 ++ ['"']) ++ natToDecimal a ++ '.' :: natToDecimal b ++ '.' ::
              natToDecimal (c + 1) ++ ('"' :: g5t) ++ ['\n'])) = true := by
            unfold updFlag
            rw [hhdr2.1, hhdr2.2]
            simp
          have hvm2 := versionMatchBump_rewritten w1 w2 w3 g5t a b (c + 1) hw1 hw2 hw3 hg5t_nn
          -- the written line is not CRLF-terminated
          have hcr2 : ['\r', '\n'].isSuffixOf ((String.mk ((w1 ++ "version".toList ++ w2 ++
              '=' :: w3 ++ ['"']) ++ natToDecimal a ++ '.' :: natToDecimal b ++ '.' ::
              natToDecimal (c + 1) ++ ('"' :: g5t) ++ ['\n'])).toList) = false := by
            rw [mk_toList]
            apply not_crlf_suffix_of_getLast
            rw [List.getLast?_append_of_ne_nil _ (List.cons_ne_nil '"' g5t)]
            intro hlast
            have hmem : '\r' ∈ '"' :: g5t := by
              have h2 := List.dropLast_append_getLast? '\r' hlast
              rw [← h2]
              simp
            rcases List.mem_cons.mp hmem with h1 | h1
            · exact absurd h1.symm (by decide)
            · exact hg5t_nr h1
          have hrw2 := rewriteBump_lf (String.mk ((w1 ++ "version".toList ++ w2 ++ '=' ::
              w3 ++ ['"']) ++ natToDecimal a ++ '.' :: natToDecimal b ++ '.' ::
              natToDecimal (c + 1) ++ ('"' :: g5t) ++ ['\n']))
            (w1 ++ "version".toList ++ w2 ++ '=' :: w3 ++ ['"']) a b (c + 1) ('"' :: g5t) hcr2
          simp only [bumpGo, hupd2, if_true, hvm2, hrw2]
          -- align the result with the target
          have hmk2 : String.mk (g1 ++ natToDecimal a ++ '.' :: natToDecimal b ++ '.' ::
              natToDecimal (c + 2) ++ g5 ++ ['\n']) =
              String.mk ((w1 ++ "version".toList ++ w2 ++ '=' :: w3 ++ ['"']) ++
                natToDecimal a ++ '.' :: natToDecimal b ++ '.' :: natToDecimal (c + 1 + 1) ++
                ('"' :: g5t) ++ ['\n']) := by
            rw [hg1, hg5_eq]
          rw [hmk2]
          rfl
      | none =>
        simp only [bumpGo, hf, if_true, hvm] at hb
        rw [Option.map_eq_some'] at hb
        obtain ⟨out, hout, hdoc'⟩ := hb
        have hcons : line :: out = doc' := hdoc'
        subst hcons
        obtain ⟨i, line₀, g1, a, b, c, g5, hget, hfl₀, hvm₀, hset, hsecond⟩ :=
          ih true out (fun l hl => hLF l (List.mem_cons_of_mem _ hl)) hout
        refine ⟨i + 1, line₀, g1, a, b, c, g5,
          by rw [List.getElem?_cons_succ]; exact hget, ?_, hvm₀, ?_, ?_⟩
        · show updFlag ((rest.take i).foldl updFlag (updFlag flag line)) line₀ = true
          rw [hf]
          exact hfl₀
        · rw [hset]
          rfl
        · simp only [bumpGo, hf, if_true, hvm]
          rw [hsecond]
          rfl
    · have hf' : updFlag flag line = false := by
        revert hf
        cases updFlag flag line <;> simp
      simp only [bumpGo, hf', Bool.false_eq_true, if_false] at hb
      rw [Option.map_eq_some'] at hb
      obtain ⟨out, hout, hdoc'⟩ := hb
      have hcons : line :: out = doc' := hdoc'
      subst hcons
      obtain ⟨i, line₀, g1, a, b, c, g5, hget, hfl₀, hvm₀, hset, hsecond⟩ :=
        ih false out (fun l hl => hLF l (List.mem_cons_of_mem _ hl)) hout
      refine ⟨i + 1, line₀, g1, a, b, c, g5,
        by rw [List.getElem?_cons_succ]; exact hget, ?_, hvm₀, ?_, ?_⟩
      · show updFlag ((rest.take i).foldl updFlag (updFlag flag line)) line₀ = true
        rw [hf']
        exact hfl₀
      · rw [hset]
        rfl
      · simp only [bumpGo, hf', Bool.false_eq_true, if_false]
        rw [hsecond]
        rfl

/-- After the universal-newline translation of `read_text` no carriage
return remains in the text. -/
theorem universalNewlines_no_cr (t : List Char) : '\r' ∉ universalNewlines t := by
  induction t using universalNewlines.induct with
  | case1 => simp [universalNewlines]
  | case2 rest ih => simp [universalNewlines]; exact ih
  | case3 rest h ih => simp [universalNewlines]; exact ih
  | case4 c rest h1 h2 ih =>
    simp [universalNewlines]
    exact ⟨fun h => h2 h.symm, ih⟩

/-- No line produced by the keepends split contains a carriage return if
the split text contains none. -/
theorem splitAux_no_cr (t : List Char) : ∀ acc, '\r' ∉ t → '\r' ∉ acc →
    ∀ l ∈ splitAux acc t, '\r' ∉ l.toList := by
  induction t with
  | nil =>
    intro acc _ hacc l hl
    simp only [splitAux] at hl
    split at hl
    · simp at hl
    · simp at hl
      subst hl
      rw [mk_toList]
      intro hx
      exact hacc (List.mem_reverse.mp hx)
  | cons c rest ih =>
    intro acc ht hacc l hl
    have hc : c ≠ '\r' := fun h => ht (h ▸ List.mem_cons_self c rest)
    have htr : '\r' ∉ rest := fun h => ht (List.mem_cons_of_mem c h)
    simp only [splitAux] at hl
    split at hl
    · rcases List.mem_cons.mp hl with h1 | h1
      · subst h1
        rw [mk_toList]
        intro hx
        rcases List.mem_append.mp hx with h2 | h2
        · exact hacc (List.mem_reverse.mp h2)
        · simp at h2
      · exact ih [] htr (by simp) l h1
    · exact ih (c :: acc) htr
        (by simp; exact ⟨fun h => hc h.symm, hacc⟩) l hl

/-- Every line the editor of `bump_version.py` actually scans is free of
carriage returns: line 16 reads the file through universal-newline
translation before splitting. -/
theorem splitlinesKeep_no_cr (raw : List Char) :
    ∀ l ∈ splitlinesKeep (universalNewlines raw), '\r' ∉ l.toList :=
  fun l hl => splitAux_no_cr (universalNewlines raw) []
    (universalNewlines_no_cr raw) (by simp) l hl

/-- C4: counterexample to the byte-identity clause at the file level. On a
CRLF-terminated Cargo.toml the pipeline of `bump_patch_in_cargo_toml`
(universal-newline `read_text`, keepends split, scan and rewrite, join and
`write_text`) bumps the version line but also writes the untouched
`"[package]\r\n"` line back as `"[package]\n"`: a line other than the
version line is not byte-identical to the input. -/
theorem crlf_normalized_counterexample :
    bump_patch_in_cargo_toml_text ("[package]\r\nversion = \"1.2.3\"\r\n".toList) =
      some ("[package]\nversion = \"1.2.4\"\n".toList) ∧
    (splitlinesKeep ("[package]\r\nversion = \"1.2.3\"\r\n".toList))[0]? =
      some "[package]\r\n" ∧
    (splitlinesKeep ("[package]\nversion = \"1.2.4\"\n".toList))[0]? =
      some "[package]\n" ∧
    ("[package]\r\n" : String) ≠ "[package]\n" := by
  decide

/-- C4: amended per-line property on documents whose lines are
LF-terminated — the shape `read_text`'s universal-newline translation
followed by `splitlines(keepends=True)` yields for every newline-terminated
file (no line of the scanned document ever contains a carriage return, see
`splitlinesKeep_no_cr`). If some line in scanning range matches the version
pattern, the editor succeeds, the first such line is rewritten to the
patch-incremented rendering with the leading assignment text (group 1) and
trailing text (group 5) preserved, and every other line of the output is
byte-identical to the input. -/
theorem bump_patch_lf_preserves (doc : List String)
    (hLF : ∀ l ∈ doc, isLFLine l = true)
    (hex : ∃ i line, doc[i]? = some line ∧
      updFlag ((doc.take i).foldl updFlag false) line = true ∧
      (versionMatchBump line).isSome = true) :
    ∃ doc' i line g1 a b c g5,
      bump_patch_in_cargo_toml doc = some doc' ∧
      doc[i]? = some line ∧
      updFlag ((doc.take i).foldl updFlag false) line = true ∧
      versionMatchBump line = some (g1, a, b, c, g5) ∧
      doc'[i]? = some (String.mk (g1 ++ natToDecimal a ++ '.' :: natToDecimal b ++ '.' ::
        natToDecimal (c + 1) ++ g5 ++ ['\n'])) ∧
      ∀ j, j ≠ i → doc'[j]? = doc[j]? := by
  have hs := bumpGo_succeeds_of_match doc false hex
  obtain ⟨doc', hb⟩ := Option.isSome_iff_exists.mp hs
  obtain ⟨i, line, g1, a, b, cc, g5, hget, hfl, hvm, hset, _⟩ :=
    bumpGo_twice doc false doc' hLF hb
  obtain ⟨hi, -⟩ := List.getElem?_eq_some_iff.mp hget
  refine ⟨doc', i, line, g1, a, b, cc, g5, hb, hget, hfl, hvm, ?_, ?_⟩
  · rw [hset]
    exact List.getElem?_set_self hi
  · intro j hj
    rw [hset]
    exact List.getElem?_set_ne (Ne.symm hj)

/-- C4: the amended theorem evaluated on a concrete LF manifest: the editor
bumps `1.2.3` to `1.2.4` on line 1 and leaves line 0 byte-identical. -/
theorem bump_patch_lf_preserves_witness :
    (∀ l ∈ ["[package]\n", "version = \"1.2.3\"\n"], isLFLine l = true) ∧
    (∃ doc' i line g1 a b c g5,
      bump_patch_in_cargo_toml ["[package]\n", "version = \"1.2.3\"\n"] = some doc' ∧
      (["[package]\n", "version = \"1.2.3\"\n"])[i]? = some line ∧
      updFlag (((["[package]\n", "version = \"1.2.3\"\n"]).take i).foldl updFlag false)
        line = true ∧
      versionMatchBump line = some (g1, a, b, c, g5) ∧
      doc'[i]? = some (String.mk (g1 ++ natToDecimal a ++ '.' :: natToDecimal b ++ '.' ::
        natToDecimal (c + 1) ++ g5 ++ ['\n'])) ∧
      ∀ j, j ≠ i → doc'[j]? = (["[package]\n", "version = \"1.2.3\"\n"])[j]?) :=
  ⟨by decide, bump_patch_lf_preserves ["[package]\n", "version = \"1.2.3\"\n"] (by decide)
    ⟨1, "version = \"1.2.3\"\n", by decide, by decide, by decide⟩⟩

/-- C5: structural idempotence. On a document whose lines are LF-terminated
(the shape the scan actually sees after `read_text`'s universal-newline
translation), a successful patch-mode edit rewrites exactly one line — the
first version line in scanning range, at index `i` — and running the editor
again on its own output succeeds, rewrites the SAME index `i`, increments
only the patch component once more (major, minor, group 1 and group 5
unchanged), and leaves every other line — including any `version` key of
another section — untouched, since the second output is `doc.set i` of the
original document. -/
theorem bump_patch_idempotent_structure (doc doc' : List String)
    (hLF : ∀ l ∈ doc, isLFLine l = true)
    (hb : bump_patch_in_cargo_toml doc = some doc') :
    ∃ i line g1 a b c g5,
      doc[i]? = some line ∧
      updFlag ((doc.take i).foldl updFlag false) line = true ∧
      versionMatchBump line = some (g1, a, b, c, g5) ∧
      doc' = doc.set i (String.mk (g1 ++ natToDecimal a ++ '.' :: natToDecimal b ++ '.' ::
        natToDecimal (c + 1) ++ g5 ++ ['\n'])) ∧
      bump_patch_in_cargo_toml doc' = some (doc.set i (String.mk (g1 ++ natToDecimal a ++
        '.' :: natToDecimal b ++ '.' :: natToDecimal (c + 2) ++ g5 ++ ['\n']))) :=
  bumpGo_twice doc false doc' hLF hb

/-- C5: the idempotence theorem evaluated on a concrete two-section LF
manifest: the first run bumps `0.1.7` to `0.1.8`, the second run bumps the
same line to `0.1.9`, and the `version` key of the `[dependencies]` section
is untouched by both. -/
theorem bump_patch_idempotent_structure_witness :
    (∀ l ∈ ["[package]\n", "version = \"0.1.7\"\n", "[dependencies]\n",
      "version = \"9.9.9\"\n"], isLFLine l = true) ∧
    bump_patch_in_cargo_toml ["[package]\n", "version = \"0.1.7\"\n", "[dependencies]\n",
      "version = \"9.9.9\"\n"] = some ["[package]\n", "version = \"0.1.8\"\n",
      "[dependencies]\n", "version = \"9.9.9\"\n"] ∧
    (∃ i line g1 a b c g5,
      (["[package]\n", "version = \"0.1.7\"\n", "[dependencies]\n",
        "version = \"9.9.9\"\n"])[i]? = some line ∧
      updFlag (((["[package]\n", "version = \"0.1.7\"\n", "[dependencies]\n",
        "version = \"9.9.9\"\n"]).take i).foldl updFlag false) line = true ∧
      versionMatchBump line = some (g1, a, b, c, g5) ∧
      (["[package]\n", "version = \"0.1.8\"\n", "[dependencies]\n",
        "version = \"9.9.9\"\n"] : List String) =
        (["[package]\n", "version = \"0.1.7\"\n", "[dependencies]\n",
          "version = \"9.9.9\"\n"]).set i (String.mk (g1 ++ natToDecimal a ++ '.' ::
          natToDecimal b ++ '.' :: natToDecimal (c + 1) ++ g5 ++ ['\n'])) ∧
      bump_patch_in_cargo_toml ["[package]\n", "version = \"0.1.8\"\n", "[dependencies]\n",
        "version = \"9.9.9\"\n"] = some ((["[package]\n", "version = \"0.1.7\"\n",
        "[dependencies]\n", "version = \"9.9.9\"\n"]).set i (String.mk (g1 ++
        natToDecimal a ++ '.' :: natToDecimal b ++ '.' :: natToDecimal (c + 2) ++ g5 ++
        ['\n'])))) :=
  ⟨by decide, by decide,
    bump_patch_idempotent_structure ["[package]\n", "version = \"0.1.7\"\n",
      "[dependencies]\n", "version = \"9.9.9\"\n"] ["[package]\n", "version = \"0.1.8\"\n",
      "[dependencies]\n", "version = \"9.9.9\"\n"] (by decide) (by decide)⟩
